import Mathlib

set_option maxRecDepth 100000

/- Verification of the ipvsdr provider reconcile logic of
   src/provider/providers/ipvsdr/ipvsdr.go.

   The Go code is shallowly embedded as executable Lean definitions:
   Kubernetes objects become structures over String / Int / List, Go nil
   pointers become Option, the object-store client becomes an explicit
   `World` state recording the stored deployments, the operations issued,
   and the log records emitted.  Go functions that can panic on a nil
   dereference or an out-of-bounds index return Option (none = panic).
   Constants and helper functions that live outside the analysed source
   file (label keys, CalculateReplicas, syncStatus, the claim manager)
   are modelled from the spec and marked as such in their doc comments. -/

namespace Ipvsdr

/-- Model of Go strings.HasPrefix s pre: true iff pre is a prefix of s
(ipvsdr.go line 270 uses strings.HasPrefix). -/
def hasPrefixStr (s p : String) : Bool :=
  p.data.isPrefixOf s.data

/-- Source constant providerNameSuffix (line 54). -/
def providerNameSuffix : String := "-provider-ipvsdr"

/-- Source constant providerName (line 55). -/
def providerName : String := "ipvsdr"

/-- Modelled from the spec: the external constant netv1alpha1.LoadBalancerTypeExternal;
its exact string value is immaterial to the claims. -/
def LoadBalancerTypeExternal : String := "external"

/-- Modelled from the spec: external label key netv1alpha1.LabelKeyCreatedBy,
the "created-by" label encoding the owning resource. -/
def LabelKeyCreatedBy : String := "loadbalancer.alpha.caicloud.io/created-by"

/-- Modelled from the spec: external label key netv1alpha1.LabelKeyProvider,
the "provider" label identifying this controller. -/
def LabelKeyProvider : String := "loadbalancer.alpha.caicloud.io/provider"

/-- Modelled from the spec: netv1alpha1.LabelValueFormatCreateby formats the
owning resource's namespace and name into one label value. -/
def labelValueCreateby (ns name : String) : String := ns ++ "." ++ name

/-- Modelled from the spec: netv1alpha1.UniqueLabelKeyFormat, the per-instance
placement ("run here") node label key (line 384). -/
def uniqueLabelKey (ns name : String) : String := ns ++ "." ++ name ++ ".unique"

structure Container where
  name : String
  image : String
  imagePullPolicy : String
  deriving DecidableEq, Repr, Inhabited

structure NodeSelectorRequirement where
  key : String
  operator : String
  values : List String
  deriving DecidableEq, Repr, Inhabited

structure NodeSelectorTerm where
  matchExpressions : List NodeSelectorRequirement
  deriving DecidableEq, Repr, Inhabited

structure NodeSelector where
  nodeSelectorTerms : List NodeSelectorTerm
  deriving DecidableEq, Repr, Inhabited

structure NodeAffinity where
  requiredDuringSchedulingIgnoredDuringExecution : Option NodeSelector
  deriving DecidableEq, Repr, Inhabited

structure PodAffinityTerm where
  matchLabels : List (String × String)
  topologyKey : String
  deriving DecidableEq, Repr, Inhabited

structure PodAntiAffinity where
  requiredDuringSchedulingIgnoredDuringExecution : List PodAffinityTerm
  deriving DecidableEq, Repr, Inhabited

structure Affinity where
  nodeAffinity : Option NodeAffinity
  podAntiAffinity : Option PodAntiAffinity
  deriving DecidableEq, Repr, Inhabited

/- Pod spec: fields of the source's pod template that are read back or
compared by sync/ensureDeployment, plus the constant fields generateDeployment
sets on them.  Constant leaf fields never read back by this controller
(resources, env, volumes, tolerations, securityContext) are omitted;
no claim and no comparison in the source touches them. -/
structure PodSpec where
  hostNetwork : Bool
  terminationGracePeriodSeconds : Option Int
  affinity : Option Affinity
  containers : List Container
  deriving DecidableEq, Repr, Inhabited

structure PodTemplateSpec where
  labels : List (String × String)
  spec : PodSpec
  deriving DecidableEq, Repr, Inhabited

structure DeploymentSpec where
  replicas : Option Int
  template : PodTemplateSpec
  deriving DecidableEq, Repr, Inhabited

structure OwnerReference where
  apiVersion : String
  kind : String
  name : String
  uid : String
  controller : Option Bool
  blockOwnerDeletion : Option Bool
  deriving DecidableEq, Repr, Inhabited

/-- ManagedWorkload object (extensions/v1beta1 Deployment).  Go labels are a
map[string]string; modelled as an association list with unique keys, in a
fixed iteration order (a Go map has no duplicate keys, so list equality of
such lists coincides with map equality). -/
structure Deployment where
  name : String
  ns : String
  labels : List (String × String)
  ownerReferences : List OwnerReference
  spec : DeploymentSpec
  deriving DecidableEq, Repr, Inhabited

/-- LogicalResource (netv1alpha1 LoadBalancer).  `sizedReplicas` is the input
of the external sizing policy and `validationError` the outcome of the
external structural validation; both are modelled from the spec because
their implementations are outside the analysed source file. -/
structure LoadBalancer where
  name : String
  ns : String
  uid : String
  typ : String
  hasIpvsdrProviderConfig : Bool
  deletionTimestamp : Option Int
  sizedReplicas : Int
  validationError : Option String
  deriving DecidableEq, Repr, Inhabited

/-- Modelled from the spec: lbutil.CalculateReplicas computes the desired
replica count from a resource-level sizing policy (line 372); the policy
itself is outside the analysed source, so the computed count is carried as
a field of the resource. -/
def CalculateReplicas (lb : LoadBalancer) : Int := lb.sizedReplicas

/-- selector (lines 145-150): the two required labels. -/
def selector (lb : LoadBalancer) : List (String × String) :=
  [(LabelKeyCreatedBy, labelValueCreateby lb.ns lb.name),
   (LabelKeyProvider, providerName)]

/-- Go map assignment m[k] = v: overwrite the existing entry for k in place,
otherwise add a new entry. -/
def mapAssign (m : List (String × String)) (k v : String) : List (String × String) :=
  if m.any (fun p => decide (p.1 = k)) then
    m.map (fun p => if p.1 = k then (k, v) else p)
  else
    m ++ [(k, v)]

/-- Go map read m[k] (used to state what the merged label map contains). -/
def lblGet (m : List (String × String)) (k : String) : Option String :=
  match m with
  | [] => none
  | p :: m => if p.1 = k then some p.2 else lblGet m k

/-- Label merge loop of ensureDeployment (lines 319-321):
for k, v := range desiredDeploy.Labels \x7b copyDp.Labels[k] = v \x7d. -/
def mergeLabels (m d : List (String × String)) : List (String × String) :=
  d.foldl (fun acc p => mapAssign acc p.1 p.2) m

/-- Containers[0] of a deployment (total version; only used under the
no-panic guard, where the container list is non-empty). -/
def firstContainer (d : Deployment) : Container :=
  d.spec.template.spec.containers.headD default

/-- Spec.Template.Spec.Affinity of a deployment (total version; only used
under the no-panic guard, where the affinity pointer is non-nil). -/
def theAffinity (d : Deployment) : Affinity :=
  d.spec.template.spec.affinity.getD default

/-- Dereferenced replica count *d.Spec.Replicas (total version; only used
under the no-panic guard, where the pointer is non-nil). -/
def replicasVal (d : Deployment) : Int :=
  d.spec.replicas.getD 0

/-- Field merge ensureDeployment performs on the deep copy (lines 318-327):
labels are unioned, replicas / container image / node affinity are replaced
wholesale from the desired deployment.  All other fields of the old
deployment are untouched. -/
def mergedDeployment (desiredDeploy oldDeploy : Deployment) : Deployment :=
  { oldDeploy with
    labels := mergeLabels oldDeploy.labels desiredDeploy.labels,
    spec := { oldDeploy.spec with
      replicas := desiredDeploy.spec.replicas,
      template := { oldDeploy.spec.template with
        spec := { oldDeploy.spec.template.spec with
          containers := oldDeploy.spec.template.spec.containers.set 0
            { firstContainer oldDeploy with image := (firstContainer desiredDeploy).image },
          affinity := some
            { theAffinity oldDeploy with
              nodeAffinity := (theAffinity desiredDeploy).nodeAffinity } } } } }

/-- Change detection of ensureDeployment (lines 329-335): the merged copy is
compared field by field with the pre-merge original (labels, replicas, node
affinity, image); Go reflect.DeepEqual on the label map is modelled as list
equality (sound because label maps have unique keys and the merge keeps the
original entry order). -/
def ensureChanged (desiredDeploy oldDeploy : Deployment) : Bool :=
  let copyDp := mergedDeployment desiredDeploy oldDeploy
  let nodeAffinityChanged := (theAffinity copyDp).nodeAffinity != (theAffinity oldDeploy).nodeAffinity
  let imageChanged := (firstContainer copyDp).image != (firstContainer oldDeploy).image
  let labelChanged := copyDp.labels != oldDeploy.labels
  let replicasChanged := replicasVal copyDp != replicasVal oldDeploy
  labelChanged || replicasChanged || nodeAffinityChanged || imageChanged

/-- Conditions under which ensureDeployment panics in Go: Containers[0] is
indexed on both deployments (lines 325, 331), .Affinity is dereferenced on
both (lines 327, 330), and .Spec.Replicas is dereferenced on both
(line 333). -/
def ensurePanics (desiredDeploy oldDeploy : Deployment) : Bool :=
  oldDeploy.spec.template.spec.containers.isEmpty ||
  desiredDeploy.spec.template.spec.containers.isEmpty ||
  oldDeploy.spec.template.spec.affinity.isNone ||
  desiredDeploy.spec.template.spec.affinity.isNone ||
  oldDeploy.spec.replicas.isNone ||
  desiredDeploy.spec.replicas.isNone

/-- One emitted log record.  `hasErr` is true exactly when the Go call site
passes an error value into the record (log.Fields\x7b"err": err\x7d or
utilruntime.HandleError); info records emitted regardless of any failure
have hasErr = false. -/
structure LogRecord where
  level : String
  msg : String
  lbName : Option String
  dpName : Option String
  hasErr : Bool
  deriving DecidableEq, Repr, Inhabited

/-- Log record of line 337 (inside ensureDeployment, emitted when a change
is detected). -/
def ensureLogOf (copyName : String) : LogRecord :=
  { level := "info", msg := "Abount to correct ipvsdr provider",
    lbName := none, dpName := some copyName, hasErr := false }

/-- ensureDeployment (lines 312-347).  DeploymentDeepCopy is a value copy in
this embedding, so the Go deep-copy serialization error (the only non-nil
error the Go function can return) cannot occur; the Option models the nil
dereference / index panics listed in `ensurePanics`.  Returns the merged
copy, the changed flag and the log records the call emits. -/
def ensureDeployment (desiredDeploy oldDeploy : Deployment) :
    Option (Deployment × Bool × List LogRecord) :=
  if ensurePanics desiredDeploy oldDeploy then none
  else
    let copyDp := mergedDeployment desiredDeploy oldDeploy
    let changed := ensureChanged desiredDeploy oldDeploy
    some (copyDp, changed, if changed then [ensureLogOf copyDp.name] else [])

/-- One object-store mutation issued by the controller. -/
inductive StoreOp where
  | update (d : Deployment)
  | create (d : Deployment)
  | delete (ns name : String) (gracePeriodSeconds : Option Int) (propagationPolicy : Option String)
  | status (ns lbName activeName : String)
  deriving DecidableEq, Repr, Inhabited

/-- State of a reconcile pass: the object store (deployments of the working
namespace), the per-name failure injections of the store client, the
mutations issued so far and the log records emitted so far. -/
structure World where
  store : List Deployment
  failUpdates : List String
  failCreates : List String
  failDeletes : List String
  failList : Bool
  ops : List StoreOp
  logs : List LogRecord
  deriving DecidableEq, Repr, Inhabited

def World.logit (w : World) (r : LogRecord) : World :=
  { w with logs := w.logs ++ [r] }

/-- Object-store Update: records the op; on injected failure returns a Go
style non-nil error, otherwise replaces the stored deployment of the same
name. -/
def World.update (w : World) (d : Deployment) : Option String × World :=
  let w1 := { w with ops := w.ops ++ [StoreOp.update d] }
  if d.name ∈ w1.failUpdates then
    (some ("update failed: " ++ d.name), w1)
  else
    (none, { w1 with store := w1.store.map (fun e => if e.name = d.name then d else e) })

/-- Object-store Create: records the op; on injected failure returns an
error, otherwise appends the deployment. -/
def World.create (w : World) (d : Deployment) : Option String × World :=
  let w1 := { w with ops := w.ops ++ [StoreOp.create d] }
  if d.name ∈ w1.failCreates then
    (some ("create failed: " ++ d.name), w1)
  else
    (none, { w1 with store := w1.store ++ [d] })

/-- Object-store Delete with options: records the op; on injected failure
returns an error, otherwise removes the deployment of that name. -/
def World.delete (w : World) (ns name : String) (gracePeriodSeconds : Option Int)
    (propagationPolicy : Option String) : Option String × World :=
  let w1 := { w with ops := w.ops ++ [StoreOp.delete ns name gracePeriodSeconds propagationPolicy] }
  if name ∈ w1.failDeletes then
    (some ("delete failed: " ++ name), w1)
  else
    (none, { w1 with store := w1.store.filter (fun e => decide (e.name ≠ name)) })

/-- Name test of line 270: strings.HasPrefix(dp.Name, lb.Name+providerNameSuffix). -/
def hasExpectedName (lb : LoadBalancer) (dp : Deployment) : Bool :=
  hasPrefixStr dp.name (lb.name ++ providerNameSuffix)

/-- Log record of line 275. -/
def scaleLogOf (dpName lbName : String) : LogRecord :=
  { level := "info", msg := "Scale unexpected provider replicas to zero",
    lbName := some lbName, dpName := some dpName, hasErr := false }

/-- Log record of line 289. -/
def syncUpdateLogOf (dpName lbName : String) : LogRecord :=
  { level := "info", msg := "Sync ipvsdr for lb",
    lbName := some lbName, dpName := some dpName, hasErr := false }

/-- Log record of line 302. -/
def createLogOf (dpName lbName : String) : LogRecord :=
  { level := "info", msg := "Create ipvsdr for lb",
    lbName := some lbName, dpName := some dpName, hasErr := false }

/-- Scale-down copy of lines 276-278: DeploymentDeepCopy(dp) with
copy.Spec.Replicas set to zero. -/
def zeroDep (dp : Deployment) : Deployment :=
  { dp with spec := { dp.spec with replicas := some 0 } }

/-- Running state of the loop of sync (lines 262-297). -/
structure PassState where
  updated : Bool
  activeDeploy : Deployment
  world : World
  deriving DecidableEq, Repr, Inhabited

/-- Loop body of sync (lines 265-297), iterating over the claimed deployment
list in order.  A deployment whose name lacks the generated prefix, or any
deployment once a target has been selected, is scaled to zero when its
replica count is non-zero; the Update result of that scale-down is discarded
by the source (line 279).  The first deployment carrying the prefix becomes
the target: it is merged via ensureDeployment and updated when changed, and
an error of that Update aborts the pass (lines 290-293).  The Go branch
`if err != nil \x7b continue \x7d` after ensureDeployment (line 285) is
unreachable in the value model because the deep copy cannot fail.
Returns none when a nil dereference panics. -/
def syncLoop (lb : LoadBalancer) (desiredDeploy : Deployment) :
    List Deployment → PassState → Option (Option String × PassState)
  | [], st => some (none, st)
  | dp :: dps, st =>
    if !(hasExpectedName lb dp) || st.updated then
      match dp.spec.replicas with
      | none => none
      | some r =>
        if r = 0 then
          syncLoop lb desiredDeploy dps st
        else
          let w := st.world.logit (scaleLogOf dp.name lb.name)
          let copyDp := zeroDep dp
          let w := (w.update copyDp).2
          syncLoop lb desiredDeploy dps { st with world := w }
    else
      let st1 := { st with updated := true }
      match ensureDeployment desiredDeploy dp with
      | none => none
      | some (copyDp, changed, ensLogs) =>
        let w := { st1.world with logs := st1.world.logs ++ ensLogs }
        if changed then
          let w1 := w.logit (syncUpdateLogOf dp.name lb.name)
          match w1.update copyDp with
          | (some e, w2) => some (some e, { st1 with world := w2 })
          | (none, w2) => syncLoop lb desiredDeploy dps { st1 with activeDeploy := copyDp, world := w2 }
        else
          syncLoop lb desiredDeploy dps { st1 with activeDeploy := copyDp, world := w }

/-- generateDeployment (lines 369-509): the desired deployment descriptor
computed from the LoadBalancer.  `image` is the configured provider image,
`randSuffix` the 5-character random suffix drawn by
lbutil.RandStringBytesRmndr (line 412); randomness is modelled by passing
the drawn suffix as a parameter. -/
def generateDeployment (image randSuffix : String) (lb : LoadBalancer) : Deployment :=
  let labels := selector lb
  let nodeAffinity : NodeAffinity :=
    { requiredDuringSchedulingIgnoredDuringExecution := some (
      { nodeSelectorTerms := [
        { matchExpressions := [
          { key := uniqueLabelKey lb.ns lb.name, operator := "In", values := ["true"] } ] } ] } ) }
  let podAffinity : PodAntiAffinity :=
    { requiredDuringSchedulingIgnoredDuringExecution := [
      { matchLabels := [(LabelKeyProvider, providerName)], topologyKey := "kubernetes.io/hostname" } ] }
  { name := lb.name ++ providerNameSuffix ++ "-" ++ randSuffix,
    ns := lb.ns,
    labels := labels,
    ownerReferences := [
      { apiVersion := "networking.caicloud.io/v1alpha1", kind := "LoadBalancer",
        name := lb.name, uid := lb.uid, controller := some true, blockOwnerDeletion := some true } ],
    spec := {
      replicas := some (CalculateReplicas lb),
      template := {
        labels := labels,
        spec := {
          hostNetwork := true,
          terminationGracePeriodSeconds := some 30,
          affinity := some { nodeAffinity := some nodeAffinity, podAntiAffinity := some podAffinity },
          containers := [
            { name := providerName, image := image, imagePullPolicy := "Always" } ] } } } }

/-- Modelled from the spec: f.syncStatus recomputes and persists the
LoadBalancer status from the active workload (line 309); its body is not in
the analysed source file.  Modelled as recording a status-update effect that
succeeds. -/
def syncStatus (lb : LoadBalancer) (activeDeploy : Deployment) (w : World) :
    Option String × World :=
  (none, { w with ops := w.ops ++ [StoreOp.status lb.ns lb.name activeDeploy.name] })

/-- sync (lines 258-310): generate the desired deployment, converge the
claimed deployment list against it, create a fresh deployment when no name
matched, then sync status from the active deployment. -/
def sync (image randSuffix : String) (lb : LoadBalancer) (dps : List Deployment) (w : World) :
    Option (Option String × World) :=
  let desiredDeploy := generateDeployment image randSuffix lb
  match syncLoop lb desiredDeploy dps { updated := false, activeDeploy := desiredDeploy, world := w } with
  | none => none
  | some (some e, st) => some (some e, st.world)
  | some (none, st) =>
    if !st.updated then
      let w1 := st.world.logit (createLogOf desiredDeploy.name lb.name)
      match w1.create desiredDeploy with
      | (some e, w2) => some (some e, w2)
      | (none, w2) => some (syncStatus lb st.activeDeploy w2)
    else
      some (syncStatus lb st.activeDeploy st.world)

/-- labels.Set.AsSelector().Matches: every selector pair occurs in the
object's label map. -/
def selectorMatches (lb : LoadBalancer) (d : Deployment) : Bool :=
  (selector lb).all (fun p => decide (lblGet d.labels p.1 = some p.2))

/-- getDeploymentsForLoadBalancer (lines 227-255): list the namespace's
deployments by the label selector, then adjudicate ownership.  The claim
manager (controllerutil.NewDeploymentControllerRefManager) is outside the
analysed source; its adjudication is modelled from the spec as keeping the
selector-matched candidates.  An injected lister failure yields the error
return of line 235. -/
def getDeploymentsForLoadBalancer (lb : LoadBalancer) (w : World) :
    Except String (List Deployment) :=
  if w.failList then Except.error ("deployment list failed")
  else Except.ok (w.store.filter (selectorMatches lb))

/-- cleanup (lines 350-367): re-derive the claimed set and delete each
deployment with a 30 second grace period and foreground propagation.  The
Delete result is discarded by the source (line 360): a failed delete
neither stops the loop nor changes the nil return, and no log is emitted. -/
def cleanup (lb : LoadBalancer) (w : World) : Option String × World :=
  match getDeploymentsForLoadBalancer lb w with
  | Except.error e => (some e, w)
  | Except.ok ds =>
    (none, ds.foldl (fun acc d => (World.delete acc d.ns d.name (some 30) (some ("Foreground"))).2) w)

/-- Log record of line 174. -/
def onSyncLogOf (lbName : String) : LogRecord :=
  { level := "info", msg := "Syncing providers, triggered by lb controller",
    lbName := some lbName, dpName := none, hasErr := false }

/-- OnSync (lines 169-176): skip when the resource's type is not external
and an ipvsdr provider configuration is present, otherwise log and enqueue.
Returns whether the resource was enqueued, with the emitted log records. -/
def OnSync (lb : LoadBalancer) : Bool × List LogRecord :=
  if lb.typ ≠ LoadBalancerTypeExternal ∧ lb.hasIpvsdrProviderConfig = true then
    (false, [])
  else
    (true, [onSyncLogOf lb.name])

/-- Result of the lister re-fetch of line 197 (found / IsNotFound / other
error), passed as a parameter because the lister cache is external. -/
inductive GetResult where
  | found (lb : LoadBalancer)
  | notFound
  | failed (e : String)
  deriving DecidableEq, Repr, Inhabited

/-- controllerutil.KeyFunc: the standard namespace/name cache key
(modelled from the spec). -/
def lbKey (lb : LoadBalancer) : String := lb.ns ++ "/" ++ lb.name

/-- Log record of line 186 (the validation error value is passed into the
record, hence hasErr = true). -/
def validationLog : LogRecord :=
  { level := "debug", msg := "invalid loadbalancer scheme",
    lbName := none, dpName := none, hasErr := true }

/-- Log record of line 199. -/
def deletedLogOf (key : String) : LogRecord :=
  { level := "warn", msg := "LoadBalancer has been deleted, clean up provider",
    lbName := some key, dpName := none, hasErr := false }

/-- Log record of line 204 (utilruntime.HandleError with the retrieval
error, hence hasErr = true). -/
def retrieveErrLogOf (key : String) : LogRecord :=
  { level := "error", msg := "Unable to retrieve LoadBalancer from store",
    lbName := some key, dpName := none, hasErr := true }

/-- syncLoadBalancer (lines 178-225): validate, re-fetch, dispatch to
cleanup on NotFound, abandon on UID mismatch, claim deployments, skip when
deletion is in progress, else converge.  The constant deferred debug record
of line 194 is omitted: it is emitted on every non-validation path alike and
carries no error.  Validation (pkg/util/validation.ValidateLoadBalancer) is
external; its outcome is the modelled `validationError` field. -/
def syncLoadBalancer (image randSuffix : String) (lb : LoadBalancer) (getRes : GetResult)
    (w : World) : Option (Option String × World) :=
  match lb.validationError with
  | some e => some (some e, w.logit validationLog)
  | none =>
    match getRes with
    | GetResult.notFound =>
      let w1 := w.logit (deletedLogOf (lbKey lb))
      some (cleanup lb w1)
    | GetResult.failed e => some (some e, w.logit (retrieveErrLogOf (lbKey lb)))
    | GetResult.found nlb =>
      if lb.uid ≠ nlb.uid then some (none, w)
      else
        match getDeploymentsForLoadBalancer nlb w with
        | Except.error e => some (some e, w)
        | Except.ok ds =>
          if nlb.deletionTimestamp ≠ none then some (none, w)
          else sync image randSuffix nlb ds w

/-- Modelled from the spec: the external rate-limited work queue retries a
dequeued key (with backoff) exactly when the handler returns a non-nil
error. -/
def requeues (r : Option (Option String × World)) : Bool :=
  match r with
  | some (some _, _) => true
  | _ => false

end Ipvsdr

namespace Ipvsdr

/- Lemmas about the Go-map model: mapAssign, mergeLabels, lblGet. -/

theorem mergeLabels_nil (m : List (String × String)) : mergeLabels m [] = m := rfl

theorem mergeLabels_cons (m : List (String × String)) (p : String × String)
    (d : List (String × String)) :
    mergeLabels m (p :: d) = mergeLabels (mapAssign m p.1 p.2) d := rfl

theorem lblGet_eq_none_of_no_key (d : List (String × String)) (k : String)
    (h : ∀ p ∈ d, p.1 ≠ k) : lblGet d k = none := by
  induction d with
  | nil => rfl
  | cons p d ih =>
    have hp : p.1 ≠ k := h p (by simp)
    simp only [lblGet, if_neg hp]
    exact ih (fun q hq => h q (by simp [hq]))

theorem lblGet_overwrite (m : List (String × String)) (k v : String)
    (hany : m.any (fun p => decide (p.1 = k)) = true) :
    lblGet (m.map (fun p => if p.1 = k then (k, v) else p)) k = some v := by
  induction m with
  | nil => simp at hany
  | cons p m ih =>
    by_cases hp : p.1 = k
    · simp [lblGet, hp]
    · simp only [List.any_cons, Bool.or_eq_true, decide_eq_true_eq] at hany
      rcases hany with h | h
      · exact absurd h hp
      · simpa [lblGet, hp] using ih h

theorem lblGet_append_self (m : List (String × String)) (k v : String) :
    lblGet (m ++ [(k, v)]) k = some v ∨ (lblGet m k).isSome = true := by
  induction m with
  | nil => left; simp [lblGet]
  | cons p m ih =>
    by_cases hp : p.1 = k
    · right; simp [lblGet, hp]
    · rcases ih with h | h
      · left; simpa [lblGet, hp] using h
      · right; simpa [lblGet, hp] using h

theorem lblGet_append_self_of_no_key (m : List (String × String)) (k v : String)
    (h : ∀ p ∈ m, p.1 ≠ k) : lblGet (m ++ [(k, v)]) k = some v := by
  induction m with
  | nil => simp [lblGet]
  | cons p m ih =>
    have hp : p.1 ≠ k := h p (by simp)
    simpa [lblGet, hp] using ih (fun q hq => h q (by simp [hq]))

theorem no_key_of_any_eq_false (m : List (String × String)) (k : String)
    (hany : m.any (fun p => decide (p.1 = k)) = false) : ∀ p ∈ m, p.1 ≠ k := by
  intro p hp hpk
  have : m.any (fun p => decide (p.1 = k)) = true :=
    List.any_eq_true.mpr ⟨p, hp, by simp [hpk]⟩
  rw [this] at hany
  simp at hany

theorem lblGet_mapAssign_self (m : List (String × String)) (k v : String) :
    lblGet (mapAssign m k v) k = some v := by
  unfold mapAssign
  split
  · rename_i hany
    exact lblGet_overwrite m k v hany
  · rename_i hany
    rw [Bool.not_eq_true] at hany
    exact lblGet_append_self_of_no_key m k v (no_key_of_any_eq_false m k hany)

theorem lblGet_map_ne (m : List (String × String)) (k v k' : String) (h : k' ≠ k) :
    lblGet (m.map (fun p => if p.1 = k then (k, v) else p)) k' = lblGet m k' := by
  induction m with
  | nil => rfl
  | cons p m ih =>
    by_cases hp : p.1 = k
    · have h1 : k ≠ k' := fun he => h he.symm
      have h2 : p.1 ≠ k' := by rw [hp]; exact h1
      simp only [List.map_cons, lblGet, if_pos hp, if_neg h1, if_neg h2]
      exact ih
    · by_cases hq : p.1 = k'
      · simp only [List.map_cons, lblGet, if_neg hp, if_pos hq]
      · simp only [List.map_cons, lblGet, if_neg hp, if_neg hq]
        exact ih

theorem lblGet_append_ne (m : List (String × String)) (k v k' : String) (h : k' ≠ k) :
    lblGet (m ++ [(k, v)]) k' = lblGet m k' := by
  induction m with
  | nil => simp [lblGet, Ne.symm h]
  | cons p m ih =>
    by_cases hq : p.1 = k'
    · simp [lblGet, hq]
    · simp [lblGet, hq, ih]

theorem lblGet_mapAssign_ne (m : List (String × String)) (k v k' : String) (h : k' ≠ k) :
    lblGet (mapAssign m k v) k' = lblGet m k' := by
  unfold mapAssign
  split
  · exact lblGet_map_ne m k v k' h
  · exact lblGet_append_ne m k v k' h

theorem lblGet_mergeLabels_none (m d : List (String × String)) (k : String)
    (h : lblGet d k = none) : lblGet (mergeLabels m d) k = lblGet m k := by
  induction d generalizing m with
  | nil => rfl
  | cons p d ih =>
    simp only [lblGet] at h
    by_cases hp : p.1 = k
    · rw [if_pos hp] at h
      exact absurd h (by simp)
    · rw [if_neg hp] at h
      rw [mergeLabels_cons, ih _ h]
      exact lblGet_mapAssign_ne m p.1 p.2 k (fun he => hp he.symm)

theorem lblGet_mergeLabels_some (m d : List (String × String)) (k v : String)
    (hnodup : (d.map Prod.fst).Nodup) (h : lblGet d k = some v) :
    lblGet (mergeLabels m d) k = some v := by
  induction d generalizing m with
  | nil => simp [lblGet] at h
  | cons p d ih =>
    simp only [List.map_cons, List.nodup_cons] at hnodup
    by_cases hp : p.1 = k
    · have hv : p.2 = v := by
        simp only [lblGet, if_pos hp] at h
        exact Option.some.inj h
      have hnone : lblGet d k = none := by
        apply lblGet_eq_none_of_no_key
        intro q hq hqk
        exact hnodup.1 (List.mem_map.mpr ⟨q, hq, by rw [hqk, ← hp]⟩)
      rw [mergeLabels_cons, lblGet_mergeLabels_none _ _ _ hnone, ← hp, ← hv]
      exact lblGet_mapAssign_self m p.1 p.2
    · simp only [lblGet, if_neg hp] at h
      rw [mergeLabels_cons]
      exact ih _ hnodup.2 h

/-- Invariant used for merge idempotence: the map contains key k, and every
entry with key k carries value v. -/
def holdsKey (m : List (String × String)) (k v : String) : Prop :=
  m.any (fun p => decide (p.1 = k)) = true ∧ ∀ p ∈ m, p.1 = k → p.2 = v

theorem holdsKey_mapAssign_self (m : List (String × String)) (k v : String) :
    holdsKey (mapAssign m k v) k v := by
  constructor
  · unfold mapAssign
    split
    · rename_i hany
      rw [List.any_eq_true] at hany ⊢
      obtain ⟨p, hp, hpk⟩ := hany
      rw [decide_eq_true_eq] at hpk
      exact ⟨(k, v), List.mem_map.mpr ⟨p, hp, by simp [hpk]⟩, by simp⟩
    · rw [List.any_eq_true]
      exact ⟨(k, v), by simp, by simp⟩
  · unfold mapAssign
    split
    · intro p hp hpk
      obtain ⟨q, hq, hqe⟩ := List.mem_map.mp hp
      by_cases hqk : q.1 = k
      · rw [if_pos hqk] at hqe
        rw [← hqe]
      · rw [if_neg hqk] at hqe
        rw [← hqe] at hpk
        exact absurd hpk hqk
    · rename_i hany
      intro p hp hpk
      rw [List.mem_append] at hp
      rcases hp with hp | hp
      · exfalso
        exact hany (List.any_eq_true.mpr ⟨p, hp, by simp [hpk]⟩)
      · simp only [List.mem_singleton] at hp
        rw [hp]

theorem holdsKey_mapAssign_other (m : List (String × String)) (k v k1 v1 : String)
    (hne : k1 ≠ k) (h : holdsKey m k v) : holdsKey (mapAssign m k1 v1) k v := by
  obtain ⟨hany, hall⟩ := h
  constructor
  · unfold mapAssign
    split
    · rw [List.any_eq_true] at hany ⊢
      obtain ⟨p, hp, hpk⟩ := hany
      rw [decide_eq_true_eq] at hpk
      refine ⟨if p.1 = k1 then (k1, v1) else p, List.mem_map.mpr ⟨p, hp, rfl⟩, ?_⟩
      have hp1 : ¬ p.1 = k1 := by rw [hpk]; exact fun he => hne he.symm
      rw [if_neg hp1]
      simp [hpk]
    · rw [List.any_eq_true] at hany ⊢
      obtain ⟨p, hp, hpk⟩ := hany
      exact ⟨p, List.mem_append_left _ hp, hpk⟩
  · unfold mapAssign
    split
    · intro p hp hpk
      obtain ⟨q, hq, hqe⟩ := List.mem_map.mp hp
      by_cases hqk : q.1 = k1
      · rw [if_pos hqk] at hqe
        rw [← hqe] at hpk
        exact absurd hpk hne
      · rw [if_neg hqk] at hqe
        rw [← hqe] at hpk ⊢
        exact hall q hq hpk
    · intro p hp hpk
      rw [List.mem_append] at hp
      rcases hp with hp | hp
      · exact hall p hp hpk
      · simp only [List.mem_singleton] at hp
        rw [hp] at hpk
        exact absurd hpk hne

theorem mapAssign_of_holdsKey (m : List (String × String)) (k v : String)
    (h : holdsKey m k v) : mapAssign m k v = m := by
  obtain ⟨hany, hall⟩ := h
  unfold mapAssign
  rw [if_pos hany]
  conv_rhs => rw [← List.map_id m]
  apply List.map_congr_left
  intro p hp
  by_cases hpk : p.1 = k
  · have hv := hall p hp hpk
    rw [if_pos hpk, ← hpk, ← hv]
    rfl
  · rw [if_neg hpk]
    rfl

theorem holdsKey_mergeLabels (m d : List (String × String)) (k v : String)
    (h : holdsKey m k v) (hd : ∀ p ∈ d, p.1 ≠ k) : holdsKey (mergeLabels m d) k v := by
  induction d generalizing m with
  | nil => exact h
  | cons p d ih =>
    rw [mergeLabels_cons]
    exact ih _ (holdsKey_mapAssign_other m k v p.1 p.2 (hd p (by simp)) h)
      (fun q hq => hd q (by simp [hq]))

theorem mergeLabels_idem (m d : List (String × String))
    (hnodup : (d.map Prod.fst).Nodup) :
    mergeLabels (mergeLabels m d) d = mergeLabels m d := by
  induction d generalizing m with
  | nil => rfl
  | cons p d ih =>
    simp only [List.map_cons, List.nodup_cons] at hnodup
    rw [mergeLabels_cons, mergeLabels_cons]
    have hk : holdsKey (mergeLabels (mapAssign m p.1 p.2) d) p.1 p.2 := by
      apply holdsKey_mergeLabels
      · exact holdsKey_mapAssign_self m p.1 p.2
      · intro q hq hqk
        exact hnodup.1 (List.mem_map.mpr ⟨q, hq, hqk⟩)
    rw [mapAssign_of_holdsKey _ _ _ hk]
    exact ih _ hnodup.2

theorem mergeLabels_self_absorb (acc d : List (String × String))
    (h : ∀ p ∈ d, holdsKey acc p.1 p.2) : mergeLabels acc d = acc := by
  induction d with
  | nil => rfl
  | cons p d ih =>
    rw [mergeLabels_cons, mapAssign_of_holdsKey _ _ _ (h p (by simp))]
    exact ih (fun q hq => h q (by simp [hq]))

theorem mergeLabels_self (d : List (String × String))
    (hnodup : (d.map Prod.fst).Nodup) : mergeLabels d d = d := by
  apply mergeLabels_self_absorb
  intro p hp
  constructor
  · rw [List.any_eq_true]
    exact ⟨p, hp, by simp⟩
  · intro q hq hqk
    have : q = p := List.inj_on_of_nodup_map hnodup hq hp hqk
    rw [this]

end Ipvsdr

namespace Ipvsdr

/-- Well-formedness of a claimed deployment: non-nil replicas pointer, at
least one container, non-nil affinity — exactly the dereferences performed
by sync (line 271) and ensureDeployment (lines 325-333). -/
def WFDep (d : Deployment) : Prop :=
  d.spec.replicas ≠ none ∧ d.spec.template.spec.containers ≠ [] ∧
  d.spec.template.spec.affinity ≠ none

instance (d : Deployment) : Decidable (WFDep d) := by
  unfold WFDep
  infer_instance

theorem generateDeployment_WF (image randSuffix : String) (lb : LoadBalancer) :
    WFDep (generateDeployment image randSuffix lb) := by
  refine ⟨?_, ?_, ?_⟩ <;> simp [generateDeployment]

theorem generateDeployment_replicas (image randSuffix : String) (lb : LoadBalancer) :
    (generateDeployment image randSuffix lb).spec.replicas = some (CalculateReplicas lb) := rfl

theorem ensurePanics_eq_false (d old : Deployment) (hd : WFDep d) (hold : WFDep old) :
    ensurePanics d old = false := by
  obtain ⟨hd1, hd2, hd3⟩ := hd
  obtain ⟨ho1, ho2, ho3⟩ := hold
  unfold ensurePanics
  simp only [Bool.or_eq_false_iff, List.isEmpty_eq_false, Option.isNone_eq_false_iff,
    Option.isSome_iff_ne_none]
  exact ⟨⟨⟨⟨⟨ho2, hd2⟩, ho3⟩, hd3⟩, ho1⟩, hd1⟩

theorem ensureDeployment_eq (d old : Deployment) (hd : WFDep d) (hold : WFDep old) :
    ensureDeployment d old = some (mergedDeployment d old, ensureChanged d old,
      if ensureChanged d old then [ensureLogOf (mergedDeployment d old).name] else []) := by
  unfold ensureDeployment
  rw [ensurePanics_eq_false d old hd hold]
  simp

theorem mergedDeployment_name (d old : Deployment) :
    (mergedDeployment d old).name = old.name := rfl

theorem headD_set_zero (l : List Container) (a c : Container) (h : l ≠ []) :
    (l.set 0 a).headD c = a := by
  cases l with
  | nil => exact absurd rfl h
  | cons x xs => rfl

theorem set_zero_headD (l : List Container) (c : Container) (h : l ≠ []) :
    l.set 0 (l.headD c) = l := by
  cases l with
  | nil => exact absurd rfl h
  | cons x xs => rfl

theorem mergedDeployment_eq_of_not_changed (d old : Deployment)
    (hold : WFDep old) (hdrep : d.spec.replicas ≠ none)
    (h : ensureChanged d old = false) :
    mergedDeployment d old = old := by
  obtain ⟨ho1, ho2, ho3⟩ := hold
  unfold ensureChanged at h
  simp only [Bool.or_eq_false_iff, bne_eq_false_iff_eq] at h
  obtain ⟨⟨⟨hlab, hrep⟩, haff⟩, himg⟩ := h
  obtain ⟨ao, hao⟩ := Option.ne_none_iff_exists'.mp ho3
  obtain ⟨ro, hro⟩ := Option.ne_none_iff_exists'.mp ho1
  obtain ⟨rd, hrd⟩ := Option.ne_none_iff_exists'.mp hdrep
  have haffm : (theAffinity (mergedDeployment d old)) =
      { theAffinity old with nodeAffinity := (theAffinity d).nodeAffinity } := by
    simp [theAffinity, mergedDeployment]
  have hfc : firstContainer (mergedDeployment d old) =
      { firstContainer old with image := (firstContainer d).image } := by
    simp only [firstContainer, mergedDeployment]
    exact headD_set_zero _ _ _ ho2
  rw [haffm] at haff
  rw [hfc] at himg
  simp only at haff himg
  have hrepv : d.spec.replicas = old.spec.replicas := by
    have h1 : replicasVal (mergedDeployment d old) = replicasVal d := by
      simp [replicasVal, mergedDeployment]
    rw [h1, replicasVal, replicasVal, hro, hrd] at hrep
    simp only [Option.getD_some] at hrep
    rw [hrd, hro, hrep]
  have hcont : old.spec.template.spec.containers.set 0
      { firstContainer old with image := (firstContainer d).image } =
      old.spec.template.spec.containers := by
    rw [himg]
    exact set_zero_headD _ _ ho2
  have haffeq : (some { theAffinity old with nodeAffinity := (theAffinity d).nodeAffinity } :
      Option Affinity) = old.spec.template.spec.affinity := by
    rw [haff]
    simp [theAffinity, hao]
  have hlab' : mergeLabels old.labels d.labels = old.labels := hlab
  unfold mergedDeployment
  rw [hlab', hrepv, hcont, haffeq]

end Ipvsdr

namespace Ipvsdr

/-- Effect of one converge pass on the claimed list, in list order: the
first deployment with the generated name prefix is replaced by the field
merge against the desired deployment, every other deployment is driven to
zero replicas (re-stating the loop of sync, lines 265-297, for the store
contents after a failure-free pass). -/
def convergeList (lb : LoadBalancer) (desired : Deployment) :
    List Deployment → Bool → List Deployment
  | [], _ => []
  | dp :: dps, updated =>
    if !(hasExpectedName lb dp) || updated then
      zeroDep dp :: convergeList lb desired dps updated
    else
      mergedDeployment desired dp :: convergeList lb desired dps true

theorem zeroDep_eq_self (dp : Deployment) (h : dp.spec.replicas = some 0) :
    zeroDep dp = dp := by
  unfold zeroDep
  rw [← h]

theorem zeroDep_name (dp : Deployment) : (zeroDep dp).name = dp.name := rfl

theorem zeroDep_replicas (dp : Deployment) : (zeroDep dp).spec.replicas = some 0 := rfl

theorem World_update_ok (w : World) (c : Deployment) (hfail : w.failUpdates = []) :
    w.update c =
      (none,
        { w with
            ops := w.ops ++ [StoreOp.update c],
            store := w.store.map (fun e => if e.name = c.name then c else e) }) := by
  unfold World.update
  rw [if_neg (by simp [hfail])]

theorem store_update_replace (pre dps : List Deployment) (dp c : Deployment)
    (hname : c.name = dp.name)
    (hnodup : ((pre ++ dp :: dps).map Deployment.name).Nodup) :
    (pre ++ dp :: dps).map (fun e => if e.name = c.name then c else e) = pre ++ c :: dps := by
  rw [List.map_append, List.map_cons, List.nodup_append] at hnodup
  obtain ⟨h1, h2, hdisj⟩ := hnodup
  rw [List.map_append, List.map_cons]
  congr 1
  · conv_rhs => rw [← List.map_id pre]
    apply List.map_congr_left
    intro e he
    have hne : e.name ≠ c.name := by
      rw [hname]
      intro heq
      exact hdisj (List.mem_map.mpr ⟨e, he, rfl⟩) (by rw [heq]; exact List.mem_cons_self _ _)
    rw [if_neg hne]
    rfl
  · congr 1
    · rw [if_pos hname.symm]
    · conv_rhs => rw [← List.map_id dps]
      apply List.map_congr_left
      intro e he
      have hne : e.name ≠ c.name := by
        rw [hname]
        intro heq
        rw [List.nodup_cons] at h2
        exact h2.1 (by rw [← heq]; exact List.mem_map.mpr ⟨e, he, rfl⟩)
      rw [if_neg hne]
      rfl

theorem names_replace (pre dps : List Deployment) (dp c : Deployment)
    (hname : c.name = dp.name) :
    ((pre ++ c :: dps).map Deployment.name) = ((pre ++ dp :: dps).map Deployment.name) := by
  simp [hname]

end Ipvsdr

namespace Ipvsdr

theorem syncLoop_step_skip (lb : LoadBalancer) (desired dp : Deployment) (dps : List Deployment)
    (st : PassState)
    (hcond : (!(hasExpectedName lb dp) || st.updated) = true)
    (hr : dp.spec.replicas = some 0) :
    syncLoop lb desired (dp :: dps) st = syncLoop lb desired dps st := by
  simp [syncLoop, hcond, hr]

theorem syncLoop_step_scale (lb : LoadBalancer) (desired dp : Deployment) (dps : List Deployment)
    (st : PassState) (r : Int)
    (hcond : (!(hasExpectedName lb dp) || st.updated) = true)
    (hr : dp.spec.replicas = some r) (hr0 : r ≠ 0)
    (hfail : st.world.failUpdates = []) :
    syncLoop lb desired (dp :: dps) st =
      syncLoop lb desired dps
        { st with
            world :=
              { st.world with
                  store := st.world.store.map
                    (fun e => if e.name = (zeroDep dp).name then zeroDep dp else e),
                  ops := st.world.ops ++ [StoreOp.update (zeroDep dp)],
                  logs := st.world.logs ++ [scaleLogOf dp.name lb.name] } } := by
  simp only [syncLoop, hcond, if_true, hr]
  rw [if_neg hr0]
  rw [World_update_ok _ _ (by simp [World.logit, hfail])]
  rfl

theorem syncLoop_step_target (lb : LoadBalancer) (desired dp : Deployment) (dps : List Deployment)
    (st : PassState)
    (hcond : (!(hasExpectedName lb dp) || st.updated) = false)
    (hdes : WFDep desired) (hdp : WFDep dp)
    (hfail : st.world.failUpdates = []) :
    syncLoop lb desired (dp :: dps) st =
      if ensureChanged desired dp then
        syncLoop lb desired dps
          { updated := true,
            activeDeploy := mergedDeployment desired dp,
            world :=
              { st.world with
                  store := st.world.store.map
                    (fun e => if e.name = (mergedDeployment desired dp).name
                              then mergedDeployment desired dp else e),
                  ops := st.world.ops ++ [StoreOp.update (mergedDeployment desired dp)],
                  logs := (st.world.logs ++ [ensureLogOf (mergedDeployment desired dp).name])
                    ++ [syncUpdateLogOf dp.name lb.name] } }
      else
        syncLoop lb desired dps
          { updated := true, activeDeploy := mergedDeployment desired dp, world := st.world } := by
  simp only [syncLoop, hcond, Bool.false_eq_true, if_false,
    ensureDeployment_eq desired dp hdes hdp]
  cases hch : ensureChanged desired dp with
  | true =>
    simp only [hch, if_true]
    rw [World_update_ok _ _ (by simp [World.logit, hfail])]
    rfl
  | false =>
    simp only [hch, Bool.false_eq_true, if_false, List.append_nil]

end Ipvsdr

namespace Ipvsdr

theorem syncLoop_converge (lb : LoadBalancer) (desired : Deployment)
    (hdes : WFDep desired)
    (dps : List Deployment) (st : PassState) (pre : List Deployment)
    (hstore : st.world.store = pre ++ dps)
    (hfail : st.world.failUpdates = [])
    (hwf : ∀ dp ∈ dps, WFDep dp)
    (hnodup : ((pre ++ dps).map Deployment.name).Nodup) :
    ∃ st', syncLoop lb desired dps st = some (none, st') ∧
      st'.world.store = pre ++ convergeList lb desired dps st.updated ∧
      st'.updated = (st.updated || dps.any (hasExpectedName lb)) ∧
      st'.world.failUpdates = st.world.failUpdates ∧
      st'.world.failCreates = st.world.failCreates ∧
      st'.world.failDeletes = st.world.failDeletes ∧
      st'.world.failList = st.world.failList := by
  induction dps generalizing st pre with
  | nil =>
    refine ⟨st, by simp [syncLoop], ?_, by simp, rfl, rfl, rfl, rfl⟩
    simpa [convergeList] using hstore
  | cons dp dps ih =>
    have hwfdp := hwf dp (by simp)
    obtain ⟨r, hr⟩ := Option.ne_none_iff_exists'.mp hwfdp.1
    cases hcond : (!(hasExpectedName lb dp) || st.updated) with
    | true =>
      have hconv : convergeList lb desired (dp :: dps) st.updated
          = zeroDep dp :: convergeList lb desired dps st.updated := by
        simp only [convergeList, hcond, if_true]
      have hflag : (st.updated || (dp :: dps).any (hasExpectedName lb))
          = (st.updated || dps.any (hasExpectedName lb)) := by
        cases hhd : hasExpectedName lb dp
        · simp [hhd]
        · have hupd : st.updated = true := by
            rw [hhd] at hcond
            simpa using hcond
          simp [hupd]
      by_cases hr0 : r = 0
      · subst hr0
        obtain ⟨st', he, hs, hu, hf1, hf2, hf3, hf4⟩ :=
          ih st (pre ++ [dp]) (by rw [hstore]; simp) hfail
            (fun q hq => hwf q (by simp [hq]))
            (by simpa using hnodup)
        refine ⟨st', ?_, ?_, ?_, hf1, hf2, hf3, hf4⟩
        · rw [syncLoop_step_skip lb desired dp dps st hcond hr]
          exact he
        · rw [hs, hconv, zeroDep_eq_self dp hr]
          simp
        · rw [hu, ← hflag]
      · obtain ⟨st', he, hs, hu, hf1, hf2, hf3, hf4⟩ :=
          ih
            { st with
                world :=
                  { st.world with
                      store := st.world.store.map
                        (fun e => if e.name = (zeroDep dp).name then zeroDep dp else e),
                      ops := st.world.ops ++ [StoreOp.update (zeroDep dp)],
                      logs := st.world.logs ++ [scaleLogOf dp.name lb.name] } }
            (pre ++ [zeroDep dp])
            (by rw [hstore,
                  store_update_replace pre dps dp (zeroDep dp) (zeroDep_name dp) hnodup]
                simp)
            hfail
            (fun q hq => hwf q (by simp [hq]))
            (by simpa [zeroDep_name] using hnodup)
        refine ⟨st', ?_, ?_, ?_, hf1, hf2, hf3, hf4⟩
        · rw [syncLoop_step_scale lb desired dp dps st r hcond hr hr0 hfail]
          exact he
        · rw [hs, hconv]
          simp
        · rw [hu, ← hflag]
    | false =>
      have hhd : hasExpectedName lb dp = true := by
        rw [Bool.or_eq_false_iff] at hcond
        simpa using hcond.1
      have hupd : st.updated = false := by
        rw [Bool.or_eq_false_iff] at hcond
        exact hcond.2
      have hconv : convergeList lb desired (dp :: dps) st.updated
          = mergedDeployment desired dp :: convergeList lb desired dps true := by
        simp only [convergeList, hcond, Bool.false_eq_true, if_false]
      have hstep := syncLoop_step_target lb desired dp dps st hcond hdes hwfdp hfail
      cases hch : ensureChanged desired dp with
      | true =>
        obtain ⟨st', he, hs, hu, hf1, hf2, hf3, hf4⟩ :=
          ih
            { updated := true,
              activeDeploy := mergedDeployment desired dp,
              world :=
                { st.world with
                    store := st.world.store.map
                      (fun e => if e.name = (mergedDeployment desired dp).name
                                then mergedDeployment desired dp else e),
                    ops := st.world.ops ++ [StoreOp.update (mergedDeployment desired dp)],
                    logs := (st.world.logs ++ [ensureLogOf (mergedDeployment desired dp).name])
                      ++ [syncUpdateLogOf dp.name lb.name] } }
            (pre ++ [mergedDeployment desired dp])
            (by rw [hstore, store_update_replace pre dps dp (mergedDeployment desired dp)
                  (mergedDeployment_name desired dp) hnodup]
                simp)
            hfail
            (fun q hq => hwf q (by simp [hq]))
            (by simpa [mergedDeployment_name] using hnodup)
        refine ⟨st', ?_, ?_, ?_, hf1, hf2, hf3, hf4⟩
        · rw [hstep, hch]
          simp only [if_true]
          exact he
        · rw [hs, hconv]
          simp
        · rw [hu]
          simp [hupd, hhd]
      | false =>
        have hmerge : mergedDeployment desired dp = dp :=
          mergedDeployment_eq_of_not_changed desired dp hwfdp hdes.1 hch
        obtain ⟨st', he, hs, hu, hf1, hf2, hf3, hf4⟩ :=
          ih
            { updated := true, activeDeploy := mergedDeployment desired dp, world := st.world }
            (pre ++ [dp])
            (by rw [hstore]; simp)
            hfail
            (fun q hq => hwf q (by simp [hq]))
            (by simpa using hnodup)
        refine ⟨st', ?_, ?_, ?_, hf1, hf2, hf3, hf4⟩
        · rw [hstep, hch]
          simp only [Bool.false_eq_true, if_false]
          exact he
        · rw [hs, hconv, hmerge]
          simp
        · rw [hu]
          simp [hupd, hhd]

end Ipvsdr

namespace Ipvsdr

/-- A workload is active when its (non-nil) replica count is not zero. -/
def isActiveDep (d : Deployment) : Bool := decide (d.spec.replicas ≠ some 0)

/-- Names of the deployments carrying non-zero replicas in a store. -/
def activeNames (w : World) : List String :=
  (w.store.filter isActiveDep).map Deployment.name

/-- The name of the workload a converge pass leaves active: the first
claimed workload (in list order) whose name carries the generated prefix,
or the newly created one when none does. -/
def targetName (lb : LoadBalancer) (dps : List Deployment) (createdName : String) : String :=
  match dps.find? (hasExpectedName lb) with
  | some t => t.name
  | none => createdName

theorem mergedDeployment_replicas (d old : Deployment) :
    (mergedDeployment d old).spec.replicas = d.spec.replicas := rfl

theorem convergeList_true_all_zero (lb : LoadBalancer) (desired : Deployment)
    (l : List Deployment) :
    ∀ e ∈ convergeList lb desired l true, e.spec.replicas = some 0 := by
  induction l with
  | nil =>
    intro e he
    simp [convergeList] at he
  | cons dp dps ih =>
    intro e he
    simp only [convergeList, Bool.or_true, if_true] at he
    rcases List.mem_cons.mp he with h | h
    · rw [h]
      rfl
    · exact ih e h

theorem convergeList_false_filter (lb : LoadBalancer) (desired : Deployment) (k : Int)
    (hk : desired.spec.replicas = some k) (hk0 : k ≠ 0) (l : List Deployment) :
    (convergeList lb desired l false).filter isActiveDep
      = match l.find? (hasExpectedName lb) with
        | some t => [mergedDeployment desired t]
        | none => [] := by
  induction l with
  | nil => simp [convergeList]
  | cons dp dps ih =>
    cases hhd : hasExpectedName lb dp with
    | false =>
      have hc : convergeList lb desired (dp :: dps) false
          = zeroDep dp :: convergeList lb desired dps false := by
        simp [convergeList, hhd]
      have hz : isActiveDep (zeroDep dp) = false := by
        simp [isActiveDep, zeroDep_replicas]
      rw [hc, List.filter_cons, hz]
      simp only [Bool.false_eq_true, if_false]
      rw [ih]
      rw [List.find?_cons_of_neg _ (by simp [hhd])]
    | true =>
      have hc : convergeList lb desired (dp :: dps) false
          = mergedDeployment desired dp :: convergeList lb desired dps true := by
        simp [convergeList, hhd]
      have hact : isActiveDep (mergedDeployment desired dp) = true := by
        simp [isActiveDep, mergedDeployment_replicas, hk, hk0]
      have hrest : (convergeList lb desired dps true).filter isActiveDep = [] := by
        rw [List.filter_eq_nil_iff]
        intro e he
        simp [isActiveDep, convergeList_true_all_zero lb desired dps e he]
      rw [hc, List.filter_cons, hact]
      simp only [if_true]
      rw [hrest]
      rw [List.find?_cons_of_pos _ hhd]

theorem World_create_ok (w : World) (d : Deployment) (hfail : w.failCreates = []) :
    w.create d =
      (none,
        { w with
            ops := w.ops ++ [StoreOp.create d],
            store := w.store ++ [d] }) := by
  unfold World.create
  rw [if_neg (by simp [hfail])]

end Ipvsdr

namespace Ipvsdr

/-- Claim C1: after one converge pass (sync) over a claimed workload list
for a LoadBalancer with desired replicas > 0, exactly one deployment in the
resulting store has non-zero replicas, and it is the first workload in list
order whose name has the prefix lb.Name+providerNameSuffix (or, if no
workload has that prefix, the newly created one); every other workload with
non-zero replicas is scaled to zero.  Stated for a failure-free pass over
well-formed claimed deployments with distinct names. -/
theorem sync_exactly_one_active (image randSuffix : String) (lb : LoadBalancer)
    (dps : List Deployment) (w : World)
    (hstore : w.store = dps)
    (hfailU : w.failUpdates = [])
    (hfailC : w.failCreates = [])
    (hwf : ∀ dp ∈ dps, WFDep dp)
    (hnodup : (dps.map Deployment.name).Nodup)
    (hpos : 0 < CalculateReplicas lb) :
    (sync image randSuffix lb dps w).map Prod.fst = some none ∧
    (sync image randSuffix lb dps w).map (fun r => activeNames r.2)
      = some [targetName lb dps (generateDeployment image randSuffix lb).name] := by
  have hdes := generateDeployment_WF image randSuffix lb
  have hk0 : CalculateReplicas lb ≠ 0 := by omega
  obtain ⟨st', he, hs, hu, hf1, hf2, hf3, hf4⟩ :=
    syncLoop_converge lb (generateDeployment image randSuffix lb) hdes dps
      { updated := false, activeDeploy := generateDeployment image randSuffix lb, world := w }
      [] (by simpa using hstore) hfailU hwf (by simpa using hnodup)
  simp at hs hu hf1 hf2 hf3 hf4
  cases hfind : dps.find? (hasExpectedName lb) with
  | some t =>
    have hmem := List.mem_of_find?_eq_some hfind
    have hp := List.find?_some hfind
    have hany : dps.any (hasExpectedName lb) = true := List.any_eq_true.mpr ⟨t, hmem, hp⟩
    have hupd : st'.updated = true := by rw [hu, hany]
    constructor
    · simp only [sync]
      rw [he]
      simp [hupd, syncStatus]
    · simp only [sync]
      rw [he]
      simp only [hupd, Bool.not_true, Bool.false_eq_true, if_false, Option.map_some']
      simp only [activeNames, syncStatus]
      simp only [hs]
      rw [convergeList_false_filter lb _ (CalculateReplicas lb) rfl hk0 dps]
      rw [hfind]
      simp [targetName, hfind, mergedDeployment_name]
  | none =>
    have hany : dps.any (hasExpectedName lb) = false := by
      rw [List.any_eq_false]
      intro x hx
      exact List.find?_eq_none.mp hfind x hx
    have hupd : st'.updated = false := by rw [hu, hany]
    have hcfail : (st'.world.logit (createLogOf (generateDeployment image randSuffix lb).name
        lb.name)).failCreates = [] := by
      simp [World.logit, hf2, hfailC]
    have hcr := World_create_ok _ (generateDeployment image randSuffix lb) hcfail
    constructor
    · simp only [sync]
      rw [he]
      simp only [hupd, Bool.not_false, if_true]
      rw [hcr]
      simp [syncStatus]
    · simp only [sync]
      rw [he]
      simp only [hupd, Bool.not_false, if_true]
      rw [hcr]
      simp only [Option.map_some', activeNames, syncStatus, World.logit]
      simp only [hs]
      rw [List.filter_append]
      rw [convergeList_false_filter lb _ (CalculateReplicas lb) rfl hk0 dps]
      rw [hfind]
      simp [targetName, hfind, isActiveDep, generateDeployment_replicas, hk0]

def imgC1 : String := "img1"

def sfxC1 : String := "bbbbb"

def lbC1 : LoadBalancer :=
  { name := "lbw", ns := "nsw", uid := "u-c1", typ := "external",
    hasIpvsdrProviderConfig := true, deletionTimestamp := none,
    sizedReplicas := 2, validationError := none }

/-- Concrete well-formed pod spec for witnesses. -/
def podSpecWF : PodSpec :=
  { hostNetwork := true, terminationGracePeriodSeconds := some 30,
    affinity := some { nodeAffinity := none, podAntiAffinity := none },
    containers := [ { name := providerName, image := "img0", imagePullPolicy := "Always" } ] }

def dpTargetC1 : Deployment :=
  { name := "lbw-provider-ipvsdr-aaaaa", ns := "nsw", labels := selector lbC1,
    ownerReferences := [],
    spec := { replicas := some 2, template := { labels := [], spec := podSpecWF } } }

def dpStaleC1 : Deployment :=
  { name := "stale", ns := "nsw", labels := selector lbC1, ownerReferences := [],
    spec := { replicas := some 3, template := { labels := [], spec := podSpecWF } } }

def wC1 : World :=
  { store := [dpStaleC1, dpTargetC1], failUpdates := [], failCreates := [], failDeletes := [],
    failList := false, ops := [], logs := [] }

/-- Witness for C1 at a concrete two-workload store: the stale workload is
scaled to zero and the prefixed one stays the only active workload. -/
theorem sync_exactly_one_active_witness :
    (sync imgC1 sfxC1 lbC1 [dpStaleC1, dpTargetC1] wC1).map Prod.fst = some none ∧
    (sync imgC1 sfxC1 lbC1 [dpStaleC1, dpTargetC1] wC1).map (fun r => activeNames r.2)
      = some [targetName lbC1 [dpStaleC1, dpTargetC1] (generateDeployment imgC1 sfxC1 lbC1).name] :=
  sync_exactly_one_active imgC1 sfxC1 lbC1 [dpStaleC1, dpTargetC1] wC1 rfl rfl rfl
    (by decide) (by decide) (by decide)

end Ipvsdr

namespace Ipvsdr

/-- Claim C3: for every existing target workload and desired descriptor,
ensureDeployment produces a merged object whose label map is the union of
the old labels and the desired labels: desired values win on shared keys,
all other old keys keep their old values; in particular a label present on
the existing workload but absent from the desired labels is unchanged.
Stated via the Go-map read `lblGet` over the association-list label model;
the desired label map has unique keys (a Go map cannot have duplicates). -/
theorem ensureDeployment_label_union (desiredDeploy oldDeploy : Deployment)
    (hdes : WFDep desiredDeploy) (hold : WFDep oldDeploy)
    (hnodup : (desiredDeploy.labels.map Prod.fst).Nodup) :
    (ensureDeployment desiredDeploy oldDeploy).map (fun x => x.1.labels)
      = some (mergeLabels oldDeploy.labels desiredDeploy.labels) ∧
    (∀ k v, lblGet desiredDeploy.labels k = some v →
      lblGet (mergeLabels oldDeploy.labels desiredDeploy.labels) k = some v) ∧
    (∀ k, lblGet desiredDeploy.labels k = none →
      lblGet (mergeLabels oldDeploy.labels desiredDeploy.labels) k
        = lblGet oldDeploy.labels k) := by
  refine ⟨?_, ?_, ?_⟩
  · rw [ensureDeployment_eq desiredDeploy oldDeploy hdes hold]
    rfl
  · intro k v h
    exact lblGet_mergeLabels_some oldDeploy.labels desiredDeploy.labels k v hnodup h
  · intro k h
    exact lblGet_mergeLabels_none oldDeploy.labels desiredDeploy.labels k h

def dpOldC3 : Deployment :=
  { name := "lbw-provider-ipvsdr-aaaaa", ns := "nsw",
    labels := [("custom-key", "custom-value"), (LabelKeyProvider, "old-value")],
    ownerReferences := [],
    spec := { replicas := some 2, template := { labels := [], spec := podSpecWF } } }

/-- Witness for C3: merging the generated labels into a workload carrying an
unrelated label keeps the unrelated label and overwrites the shared key. -/
theorem ensureDeployment_label_union_witness :
    ((ensureDeployment (generateDeployment imgC1 sfxC1 lbC1) dpOldC3).map (fun x => x.1.labels)
      = some (mergeLabels dpOldC3.labels (generateDeployment imgC1 sfxC1 lbC1).labels) ∧
    (∀ k v, lblGet (generateDeployment imgC1 sfxC1 lbC1).labels k = some v →
      lblGet (mergeLabels dpOldC3.labels (generateDeployment imgC1 sfxC1 lbC1).labels) k = some v) ∧
    (∀ k, lblGet (generateDeployment imgC1 sfxC1 lbC1).labels k = none →
      lblGet (mergeLabels dpOldC3.labels (generateDeployment imgC1 sfxC1 lbC1).labels) k
        = lblGet dpOldC3.labels k)) ∧
    lblGet (mergeLabels dpOldC3.labels (generateDeployment imgC1 sfxC1 lbC1).labels)
      ("custom-key") = some ("custom-value") :=
  ⟨ensureDeployment_label_union (generateDeployment imgC1 sfxC1 lbC1) dpOldC3
      (generateDeployment_WF imgC1 sfxC1 lbC1) (by decide) (by decide),
   by decide⟩

end Ipvsdr

namespace Ipvsdr

/-- Exclusion test of OnSync (line 170, with the source comment "It is not
my responsible"): the resource's type is not external and an ipvsdr provider
configuration block is present. -/
def notMyResponsibility (lb : LoadBalancer) : Prop :=
  lb.typ ≠ LoadBalancerTypeExternal ∧ lb.hasIpvsdrProviderConfig = true

/-- Claim C5: OnSync enqueues the resource for reconciliation if and only
if the resource's declared type/provider configuration does not exclude the
ipvsdr provider, where exclusion is the source's test of line 170 (type not
external AND an ipvsdr provider configuration present). -/
theorem OnSync_enqueues_iff (lb : LoadBalancer) :
    (OnSync lb).1 = true ↔ ¬ notMyResponsibility lb := by
  unfold OnSync notMyResponsibility
  split
  · rename_i h
    simp [h]
  · rename_i h
    simp [h]

end Ipvsdr

namespace Ipvsdr

def lbC6 : LoadBalancer :=
  { name := "lbv", ns := "nsv", uid := "u-c6", typ := "external",
    hasIpvsdrProviderConfig := true, deletionTimestamp := none,
    sizedReplicas := 1, validationError := some ("spec invalid") }

def wEmpty : World :=
  { store := [], failUpdates := [], failCreates := [], failDeletes := [],
    failList := false, ops := [], logs := [] }

/-- Counterexample for C6: at a concrete LoadBalancer whose validation
fails, syncLoadBalancer returns the validation error, and by the queue
contract (retry exactly on returned error) the key IS requeued — refuting
the claim that a ValidationError does not lead to a requeue of the same
key (the source returns the error at line 187). -/
theorem validation_error_requeues_counterexample :
    requeues (syncLoadBalancer imgC1 sfxC1 lbC6 (GetResult.found lbC6) wEmpty) = true := by
  decide

/-- Claim C6 (amended): when structural validation of the LoadBalancer spec
fails, the reconcile pass terminates immediately with the failure logged,
and the validation error is returned to the queue — so the item IS retried
under the queue's standard backoff policy (not dropped). -/
theorem validation_error_logged_and_returned (image randSuffix : String)
    (lb : LoadBalancer) (g : GetResult) (w : World) (e : String)
    (h : lb.validationError = some e) :
    syncLoadBalancer image randSuffix lb g w
      = some (some e, w.logit validationLog) ∧
    requeues (syncLoadBalancer image randSuffix lb g w) = true := by
  constructor
  · simp [syncLoadBalancer, h]
  · simp [syncLoadBalancer, h, requeues]

/-- Witness for the amended C6 at the concrete invalid LoadBalancer. -/
theorem validation_error_logged_and_returned_witness :
    syncLoadBalancer imgC1 sfxC1 lbC6 (GetResult.found lbC6) wEmpty
      = some (some ("spec invalid"), wEmpty.logit validationLog) ∧
    requeues (syncLoadBalancer imgC1 sfxC1 lbC6 (GetResult.found lbC6) wEmpty) = true :=
  validation_error_logged_and_returned imgC1 sfxC1 lbC6 (GetResult.found lbC6) wEmpty
    ("spec invalid") rfl

end Ipvsdr

namespace Ipvsdr

theorem foldl_delete_ops (ds : List Deployment) (w : World) :
    (ds.foldl (fun acc d => (World.delete acc d.ns d.name (some 30) (some ("Foreground"))).2) w).ops
      = w.ops ++ ds.map (fun d => StoreOp.delete d.ns d.name (some 30) (some ("Foreground"))) ∧
    (ds.foldl (fun acc d => (World.delete acc d.ns d.name (some 30) (some ("Foreground"))).2) w).logs
      = w.logs := by
  induction ds generalizing w with
  | nil => simp
  | cons d ds ih =>
    rw [List.foldl_cons, List.map_cons]
    have hd : (World.delete w d.ns d.name (some 30) (some ("Foreground"))).2.ops
        = w.ops ++ [StoreOp.delete d.ns d.name (some 30) (some ("Foreground"))] ∧
        (World.delete w d.ns d.name (some 30) (some ("Foreground"))).2.logs = w.logs := by
      by_cases hmem : d.name ∈ w.failDeletes
      · simp [World.delete, hmem]
      · simp [World.delete, hmem]
    obtain ⟨ih1, ih2⟩ := ih ((World.delete w d.ns d.name (some 30) (some ("Foreground"))).2)
    refine ⟨?_, ?_⟩
    · rw [ih1, hd.1]
      simp
    · rw [ih2, hd.2]

/-- Claim C7 (amended): when the LoadBalancer is confirmed gone, cleanup
issues a delete for every workload in the re-derived claimed set with a
grace period of exactly 30 seconds and foreground propagation, and a failed
delete of one workload neither aborts the deletion of the remaining
workloads nor makes cleanup return an error; the per-item failures are NOT
logged — cleanup emits no log record at all (the Delete result is discarded
at line 360). -/
theorem cleanup_best_effort (lb : LoadBalancer) (w : World) (h : w.failList = false) :
    (cleanup lb w).1 = none ∧
    (cleanup lb w).2.ops = w.ops ++ (w.store.filter (selectorMatches lb)).map
      (fun d => StoreOp.delete d.ns d.name (some 30) (some ("Foreground"))) ∧
    (cleanup lb w).2.logs = w.logs := by
  unfold cleanup getDeploymentsForLoadBalancer
  rw [if_neg (by simp [h])]
  refine ⟨rfl, ?_, ?_⟩
  · exact (foldl_delete_ops _ _).1
  · exact (foldl_delete_ops _ _).2

def lbC7 : LoadBalancer :=
  { name := "lbd", ns := "nsd", uid := "u-c7", typ := "external",
    hasIpvsdrProviderConfig := true, deletionTimestamp := none,
    sizedReplicas := 1, validationError := none }

def dpC7 : Deployment :=
  { name := "gone-1", ns := "nsd", labels := selector lbC7, ownerReferences := [],
    spec := { replicas := some 1, template := { labels := [], spec := podSpecWF } } }

def wC7 : World :=
  { store := [dpC7], failUpdates := [], failCreates := [], failDeletes := ["gone-1"],
    failList := false, ops := [], logs := [] }

/-- Counterexample for C7 as stated: at a concrete store whose single
claimed workload fails to delete, cleanup still returns nil and emits the
delete op — but its log list stays empty: the per-item failure is NOT
logged, refuting the claim's "(each per-item failure is logged)". -/
theorem cleanup_failure_not_logged_counterexample :
    cleanup lbC7 wC7
      = (none, { wC7 with
          ops := [StoreOp.delete ("nsd") ("gone-1") (some 30) (some ("Foreground"))] }) := by
  decide

/-- Witness for the amended C7 at the same store: the failing delete is
attempted with grace 30 / foreground, cleanup returns nil, no log record. -/
theorem cleanup_best_effort_witness :
    (cleanup lbC7 wC7).1 = none ∧
    (cleanup lbC7 wC7).2.ops = wC7.ops ++ (wC7.store.filter (selectorMatches lbC7)).map
      (fun d => StoreOp.delete d.ns d.name (some 30) (some ("Foreground"))) ∧
    (cleanup lbC7 wC7).2.logs = wC7.logs :=
  cleanup_best_effort lbC7 wC7 rfl

end Ipvsdr

namespace Ipvsdr

theorem World_update_fail (w : World) (d : Deployment) (hmem : d.name ∈ w.failUpdates) :
    w.update d = (some ("update failed: " ++ d.name),
      { w with ops := w.ops ++ [StoreOp.update d] }) := by
  unfold World.update
  rw [if_pos hmem]

theorem World_create_fail (w : World) (d : Deployment) (hmem : d.name ∈ w.failCreates) :
    w.create d = (some ("create failed: " ++ d.name),
      { w with ops := w.ops ++ [StoreOp.create d] }) := by
  unfold World.create
  rw [if_pos hmem]

theorem World_update_fail_fields (w : World) (d : Deployment) :
    (w.update d).2.failUpdates = w.failUpdates ∧
    (w.update d).2.failCreates = w.failCreates := by
  unfold World.update
  by_cases h : d.name ∈ w.failUpdates
  · simp [h]
  · simp [h]

theorem syncLoop_step_target_fail (lb : LoadBalancer) (desired dp : Deployment)
    (dps : List Deployment) (st : PassState)
    (hcond : (!(hasExpectedName lb dp) || st.updated) = false)
    (hdes : WFDep desired) (hdp : WFDep dp)
    (hch : ensureChanged desired dp = true)
    (hmem : (mergedDeployment desired dp).name ∈ st.world.failUpdates) :
    ∃ stf, syncLoop lb desired (dp :: dps) st
      = some (some ("update failed: " ++ (mergedDeployment desired dp).name), stf) := by
  simp only [syncLoop, hcond, Bool.false_eq_true, if_false,
    ensureDeployment_eq desired dp hdes hdp, hch, if_true]
  rw [World_update_fail
    (({ st.world with
        logs := st.world.logs ++ [ensureLogOf (mergedDeployment desired dp).name] } : World).logit
      (syncUpdateLogOf dp.name lb.name))
    (mergedDeployment desired dp) hmem]
  exact ⟨_, rfl⟩

theorem syncLoop_skip_nonmatching (lb : LoadBalancer) (desired : Deployment)
    (pre rest : List Deployment) (st : PassState)
    (hpre : ∀ dp ∈ pre, hasExpectedName lb dp = false ∧ dp.spec.replicas ≠ none) :
    ∃ st2, syncLoop lb desired (pre ++ rest) st = syncLoop lb desired rest st2 ∧
      st2.updated = st.updated ∧
      st2.world.failUpdates = st.world.failUpdates ∧
      st2.world.failCreates = st.world.failCreates := by
  induction pre generalizing st with
  | nil => exact ⟨st, rfl, rfl, rfl, rfl⟩
  | cons dp pre ih =>
    obtain ⟨hhd, hrep⟩ := hpre dp (by simp)
    obtain ⟨r, hr⟩ := Option.ne_none_iff_exists'.mp hrep
    have hcond : (!(hasExpectedName lb dp) || st.updated) = true := by simp [hhd]
    by_cases hr0 : r = 0
    · subst hr0
      obtain ⟨st2, he, h1, h2, h3⟩ := ih st (fun q hq => hpre q (by simp [hq]))
      refine ⟨st2, ?_, h1, h2, h3⟩
      rw [List.cons_append, syncLoop_step_skip lb desired dp (pre ++ rest) st hcond hr]
      exact he
    · have hred : syncLoop lb desired ((dp :: pre) ++ rest) st = syncLoop lb desired (pre ++ rest)
          { st with world := ((st.world.logit (scaleLogOf dp.name lb.name)).update (zeroDep dp)).2 } := by
        rw [List.cons_append]
        simp only [syncLoop, hcond, if_true, hr]
        rw [if_neg hr0]
      obtain ⟨st2, he, h1, h2, h3⟩ :=
        ih { st with world := ((st.world.logit (scaleLogOf dp.name lb.name)).update (zeroDep dp)).2 }
          (fun q hq => hpre q (by simp [hq]))
      refine ⟨st2, ?_, ?_, ?_, ?_⟩
      · rw [hred]
        exact he
      · rw [h1]
      · rw [h2]
        have := (World_update_fail_fields (st.world.logit (scaleLogOf dp.name lb.name)) (zeroDep dp)).1
        rw [this]
        rfl
      · rw [h3]
        have := (World_update_fail_fields (st.world.logit (scaleLogOf dp.name lb.name)) (zeroDep dp)).2
        rw [this]
        rfl

end Ipvsdr

namespace Ipvsdr

def lbC2 : LoadBalancer :=
  { name := "lb1", ns := "ns1", uid := "u-c2", typ := "external",
    hasIpvsdrProviderConfig := true, deletionTimestamp := none,
    sizedReplicas := 2, validationError := none }

def dpC2 : Deployment :=
  { name := "other", ns := "ns1", labels := selector lbC2, ownerReferences := [],
    spec := { replicas := some 3, template := { labels := [], spec := podSpecWF } } }

def wC2 : World :=
  { store := [dpC2], failUpdates := ["other"], failCreates := [], failDeletes := [],
    failList := false, ops := [], logs := [] }

/-- Counterexample for C2 as stated: at a concrete claimed list with one
non-target workload whose scale-to-zero Update fails (its name is injected
as failing), sync still returns nil — the attempted mutation's error is
absorbed inside the pass, because line 279 discards the Update result. -/
theorem scale_error_absorbed_counterexample :
    (sync imgC1 sfxC1 lbC2 [dpC2] wC2).map Prod.fst = some none ∧
    (sync imgC1 sfxC1 lbC2 [dpC2] wC2).map
        (fun r => decide (StoreOp.update (zeroDep dpC2) ∈ r.2.ops)) = some true := by
  decide

/-- Claim C2 (amended): an error from updating the target workload or from
creating the new workload is propagated by sync (so the pass fails and the
key requeues), but an error from scaling a non-target workload to zero is
absorbed (Update result discarded at line 279).  The two propagation paths:
(b) the first prefix-matching workload needs an update and that update
fails, sync returns the failure; (a) no workload matches, the create fails,
sync returns the failure. -/
theorem sync_propagates_target_and_create_errors
    (image randSuffix : String) (lb : LoadBalancer)
    (pre post : List Deployment) (t : Deployment) (w : World)
    (hpre : ∀ dp ∈ pre, hasExpectedName lb dp = false ∧ dp.spec.replicas ≠ none)
    (ht : hasExpectedName lb t = true) (hwt : WFDep t)
    (hch : ensureChanged (generateDeployment image randSuffix lb) t = true)
    (hmem : t.name ∈ w.failUpdates)
    (dps2 : List Deployment) (w2 : World)
    (hall2 : ∀ dp ∈ dps2, hasExpectedName lb dp = false ∧ dp.spec.replicas ≠ none)
    (hmem2 : (generateDeployment image randSuffix lb).name ∈ w2.failCreates) :
    (sync image randSuffix lb (pre ++ t :: post) w).map Prod.fst
      = some (some ("update failed: " ++ t.name)) ∧
    (sync image randSuffix lb dps2 w2).map Prod.fst
      = some (some ("create failed: " ++ (generateDeployment image randSuffix lb).name)) := by
  constructor
  · obtain ⟨st2, he, hu, hf1, hf2⟩ :=
      syncLoop_skip_nonmatching lb (generateDeployment image randSuffix lb) pre (t :: post)
        { updated := false, activeDeploy := generateDeployment image randSuffix lb, world := w }
        hpre
    have hupd : st2.updated = false := by rw [hu]
    have hcond : (!(hasExpectedName lb t) || st2.updated) = false := by simp [ht, hupd]
    have hmem' : (mergedDeployment (generateDeployment image randSuffix lb) t).name
        ∈ st2.world.failUpdates := by
      rw [mergedDeployment_name, hf1]
      exact hmem
    obtain ⟨stf, hef⟩ := syncLoop_step_target_fail lb (generateDeployment image randSuffix lb)
      t post st2 hcond (generateDeployment_WF image randSuffix lb) hwt hch hmem'
    simp only [sync]
    rw [he, hef]
    simp [mergedDeployment_name]
  · obtain ⟨st2, he, hu, hf1, hf2⟩ :=
      syncLoop_skip_nonmatching lb (generateDeployment image randSuffix lb) dps2 []
        { updated := false, activeDeploy := generateDeployment image randSuffix lb, world := w2 }
        hall2
    rw [List.append_nil] at he
    have hupd : st2.updated = false := by rw [hu]
    rw [← hf2] at hmem2
    simp only [sync]
    rw [he]
    simp only [syncLoop, hupd, Bool.not_false, if_true]
    rw [World_create_fail
      (st2.world.logit (createLogOf (generateDeployment image randSuffix lb).name lb.name))
      (generateDeployment image randSuffix lb) hmem2]
    simp

def wC2b : World :=
  { store := [dpTargetC1], failUpdates := ["lbw-provider-ipvsdr-aaaaa"], failCreates := [],
    failDeletes := [], failList := false, ops := [], logs := [] }

def wC2c : World :=
  { store := [dpStaleC1], failUpdates := [], failCreates := ["lbw-provider-ipvsdr-bbbbb"],
    failDeletes := [], failList := false, ops := [], logs := [] }

/-- Witness for the amended C2: a failing target update and a failing
create both make sync return the error, at concrete inputs. -/
theorem sync_propagates_errors_witness :
    (sync imgC1 sfxC1 lbC1 ([] ++ dpTargetC1 :: []) wC2b).map Prod.fst
      = some (some ("update failed: " ++ dpTargetC1.name)) ∧
    (sync imgC1 sfxC1 lbC1 [dpStaleC1] wC2c).map Prod.fst
      = some (some ("create failed: " ++ (generateDeployment imgC1 sfxC1 lbC1).name)) :=
  sync_propagates_target_and_create_errors imgC1 sfxC1 lbC1 [] [] dpTargetC1 wC2b
    (by decide) (by decide) (by decide) (by decide) (by decide)
    [dpStaleC1] wC2c (by decide) (by decide)

end Ipvsdr

namespace Ipvsdr

theorem World_update_nofail (w : World) (d : Deployment) (hmem : ¬ d.name ∈ w.failUpdates) :
    w.update d =
      (none,
        { w with
            ops := w.ops ++ [StoreOp.update d],
            store := w.store.map (fun e => if e.name = d.name then d else e) }) := by
  unfold World.update
  rw [if_neg hmem]

theorem syncLoop_no_panic (lb : LoadBalancer) (desired : Deployment) (hdes : WFDep desired)
    (dps : List Deployment) (st : PassState)
    (hwf : ∀ dp ∈ dps, WFDep dp) :
    (syncLoop lb desired dps st).isSome = true := by
  induction dps generalizing st with
  | nil => simp [syncLoop]
  | cons dp dps ih =>
    have hwfdp := hwf dp (by simp)
    obtain ⟨r, hr⟩ := Option.ne_none_iff_exists'.mp hwfdp.1
    cases hcond : (!(hasExpectedName lb dp) || st.updated) with
    | true =>
      by_cases hr0 : r = 0
      · subst hr0
        rw [syncLoop_step_skip lb desired dp dps st hcond hr]
        exact ih st (fun q hq => hwf q (by simp [hq]))
      · simp only [syncLoop, hcond, if_true, hr]
        rw [if_neg hr0]
        exact ih _ (fun q hq => hwf q (by simp [hq]))
    | false =>
      simp only [syncLoop, hcond, Bool.false_eq_true, if_false,
        ensureDeployment_eq desired dp hdes hwfdp]
      cases hch : ensureChanged desired dp with
      | true =>
        simp only [hch, if_true]
        by_cases hmem : (mergedDeployment desired dp).name ∈ st.world.failUpdates
        · rw [World_update_fail
            (({ st.world with
                logs := st.world.logs ++ [ensureLogOf (mergedDeployment desired dp).name] } : World).logit
              (syncUpdateLogOf dp.name lb.name))
            (mergedDeployment desired dp) hmem]
          simp
        · rw [World_update_nofail
            (({ st.world with
                logs := st.world.logs ++ [ensureLogOf (mergedDeployment desired dp).name] } : World).logit
              (syncUpdateLogOf dp.name lb.name))
            (mergedDeployment desired dp) hmem]
          exact ih _ (fun q hq => hwf q (by simp [hq]))
      | false =>
        simp only [hch, Bool.false_eq_true, if_false]
        exact ih _ (fun q hq => hwf q (by simp [hq]))

/-- Claim C9 (amended): under the precondition that every claimed deployment
has a non-nil replicas pointer, at least one container, and a non-nil
affinity, every dereference and index in sync and ensureDeployment is in
bounds: the pass completes without a panic whatever the store does.  (The
original claim's universal panic clause is refuted separately: a NON-target
deployment with an empty container list or nil affinity does not panic,
because sync only dereferences its replicas pointer.) -/
theorem sync_no_panic (image randSuffix : String) (lb : LoadBalancer)
    (dps : List Deployment) (w : World)
    (hwf : ∀ dp ∈ dps, WFDep dp) :
    (sync image randSuffix lb dps w).isSome = true := by
  have h := syncLoop_no_panic lb (generateDeployment image randSuffix lb)
    (generateDeployment_WF image randSuffix lb) dps
    { updated := false, activeDeploy := generateDeployment image randSuffix lb, world := w } hwf
  simp only [sync]
  obtain ⟨res, hres⟩ := Option.isSome_iff_exists.mp h
  rw [hres]
  obtain ⟨e, st'⟩ := res
  cases e with
  | some e => simp
  | none =>
    cases hupd : st'.updated with
    | true => simp [hupd, syncStatus]
    | false =>
      simp only [hupd, Bool.not_false, if_true]
      rcases hc : (st'.world.logit (createLogOf
          (generateDeployment image randSuffix lb).name lb.name)).create
          (generateDeployment image randSuffix lb) with ⟨e2, w2⟩
      cases e2 <;> simp [syncStatus]

def lbC9 : LoadBalancer :=
  { name := "lb9", ns := "ns9", uid := "u-c9", typ := "external",
    hasIpvsdrProviderConfig := true, deletionTimestamp := none,
    sizedReplicas := 1, validationError := none }

/-- Pod spec with an empty container list and a nil affinity. -/
def podSpecC9 : PodSpec :=
  { hostNetwork := false, terminationGracePeriodSeconds := none,
    affinity := none, containers := [] }

/-- Claimed non-target deployment with an empty container list and a nil
affinity, but a non-nil replicas pointer. -/
def dpC9 : Deployment :=
  { name := "bad-shape", ns := "ns9", labels := selector lbC9, ownerReferences := [],
    spec := { replicas := some 5, template := { labels := [], spec := podSpecC9 } } }

def wC9 : World :=
  { store := [dpC9], failUpdates := [], failCreates := [], failDeletes := [],
    failList := false, ops := [], logs := [] }

/-- Counterexample for C9 as stated: the claim says the pass panics for any
claimed deployment with an empty container list or a nil affinity; here a
claimed NON-target deployment has both, yet the pass completes (sync only
dereferences its replicas pointer at line 271 — Containers[0] and Affinity
are dereferenced only on the target, inside ensureDeployment). -/
theorem nonwf_nontarget_no_panic_counterexample :
    (sync imgC1 sfxC1 lbC9 [dpC9] wC9).isSome = true := by
  decide

/-- Witness for the amended C9 at a concrete well-formed two-workload list. -/
theorem sync_no_panic_witness :
    (sync imgC1 sfxC1 lbC1 [dpStaleC1, dpTargetC1] wC1).isSome = true :=
  sync_no_panic imgC1 sfxC1 lbC1 [dpStaleC1, dpTargetC1] wC1 (by decide)

end Ipvsdr

namespace Ipvsdr

theorem World_update_logs (w : World) (d : Deployment) : (w.update d).2.logs = w.logs := by
  unfold World.update
  by_cases h : d.name ∈ w.failUpdates <;> simp [h]

theorem World_create_logs (w : World) (d : Deployment) : (w.create d).2.logs = w.logs := by
  unfold World.create
  by_cases h : d.name ∈ w.failCreates <;> simp [h]

theorem syncLoop_logs_no_err (lb : LoadBalancer) (desired : Deployment) (hdes : WFDep desired)
    (dps : List Deployment) (st : PassState)
    (hwf : ∀ dp ∈ dps, WFDep dp)
    (hlogs : ∀ l ∈ st.world.logs, l.hasErr = false) :
    ∀ res, syncLoop lb desired dps st = some res →
      ∀ l ∈ res.2.world.logs, l.hasErr = false := by
  induction dps generalizing st with
  | nil =>
    intro res hres
    simp only [syncLoop, Option.some_inj] at hres
    subst hres
    exact hlogs
  | cons dp dps ih =>
    intro res hres
    have hwfdp := hwf dp (by simp)
    obtain ⟨r, hr⟩ := Option.ne_none_iff_exists'.mp hwfdp.1
    cases hcond : (!(hasExpectedName lb dp) || st.updated) with
    | true =>
      by_cases hr0 : r = 0
      · subst hr0
        rw [syncLoop_step_skip lb desired dp dps st hcond hr] at hres
        exact ih st (fun q hq => hwf q (by simp [hq])) hlogs res hres
      · simp only [syncLoop, hcond, if_true, hr] at hres
        rw [if_neg hr0] at hres
        refine ih _ (fun q hq => hwf q (by simp [hq])) ?_ res hres
        intro l hl
        rw [World_update_logs] at hl
        rcases (by simpa [World.logit] using hl :
            l ∈ st.world.logs ∨ l = scaleLogOf dp.name lb.name) with h | h
        · exact hlogs l h
        · subst h
          rfl
    | false =>
      simp only [syncLoop, hcond, Bool.false_eq_true, if_false,
        ensureDeployment_eq desired dp hdes hwfdp] at hres
      cases hch : ensureChanged desired dp with
      | true =>
        simp only [hch, if_true] at hres
        by_cases hmem : (mergedDeployment desired dp).name ∈ st.world.failUpdates
        · rw [World_update_fail
            (({ st.world with
                logs := st.world.logs ++ [ensureLogOf (mergedDeployment desired dp).name] } : World).logit
              (syncUpdateLogOf dp.name lb.name))
            (mergedDeployment desired dp) hmem] at hres
          simp only [Option.some_inj] at hres
          subst hres
          intro l hl
          rcases (by simpa [World.logit] using hl :
              l ∈ st.world.logs ∨ l = ensureLogOf (mergedDeployment desired dp).name ∨
                l = syncUpdateLogOf dp.name lb.name) with h | h | h
          · exact hlogs l h
          · subst h
            rfl
          · subst h
            rfl
        · rw [World_update_nofail
            (({ st.world with
                logs := st.world.logs ++ [ensureLogOf (mergedDeployment desired dp).name] } : World).logit
              (syncUpdateLogOf dp.name lb.name))
            (mergedDeployment desired dp) hmem] at hres
          refine ih _ (fun q hq => hwf q (by simp [hq])) ?_ res hres
          intro l hl
          rcases (by simpa [World.logit] using hl :
              l ∈ st.world.logs ∨ l = ensureLogOf (mergedDeployment desired dp).name ∨
                l = syncUpdateLogOf dp.name lb.name) with h | h | h
          · exact hlogs l h
          · subst h
            rfl
          · subst h
            rfl
      | false =>
        simp only [hch, Bool.false_eq_true, if_false] at hres
        refine ih _ (fun q hq => hwf q (by simp [hq])) ?_ res hres
        intro l hl
        exact hlogs l (by simpa using hl)

theorem sync_logs_no_err (image randSuffix : String) (lb : LoadBalancer)
    (dps : List Deployment) (w : World)
    (hwf : ∀ dp ∈ dps, WFDep dp)
    (hlogs : ∀ l ∈ w.logs, l.hasErr = false) :
    ∀ res, sync image randSuffix lb dps w = some res →
      ∀ l ∈ res.2.logs, l.hasErr = false := by
  intro res hres
  simp only [sync] at hres
  cases hsl : syncLoop lb (generateDeployment image randSuffix lb) dps
      { updated := false, activeDeploy := generateDeployment image randSuffix lb, world := w } with
  | none =>
    rw [hsl] at hres
    simp at hres
  | some p =>
    rw [hsl] at hres
    obtain ⟨e, st'⟩ := p
    have hst' := syncLoop_logs_no_err lb (generateDeployment image randSuffix lb)
      (generateDeployment_WF image randSuffix lb) dps
      { updated := false, activeDeploy := generateDeployment image randSuffix lb, world := w }
      hwf hlogs (e, st') hsl
    cases e with
    | some e =>
      simp only [Option.some_inj] at hres
      subst hres
      exact hst'
    | none =>
      cases hupd : st'.updated with
      | true =>
        simp only [hupd, Bool.not_true, Bool.false_eq_true, if_false, Option.some_inj] at hres
        subst hres
        exact hst'
      | false =>
        simp only [hupd, Bool.not_false, if_true] at hres
        rcases hc : (st'.world.logit (createLogOf
            (generateDeployment image randSuffix lb).name lb.name)).create
            (generateDeployment image randSuffix lb) with ⟨e2, w2⟩
        rw [hc] at hres
        have hw2 : ∀ l ∈ w2.logs, l.hasErr = false := by
          intro l hl
          have hlw : w2.logs = (st'.world.logit (createLogOf
              (generateDeployment image randSuffix lb).name lb.name)).logs := by
            have := World_create_logs (st'.world.logit (createLogOf
              (generateDeployment image randSuffix lb).name lb.name))
              (generateDeployment image randSuffix lb)
            rw [hc] at this
            exact this
          rw [hlw] at hl
          rcases (by simpa [World.logit] using hl :
              l ∈ st'.world.logs ∨ l = createLogOf (generateDeployment image randSuffix lb).name
                lb.name) with h | h
          · exact hst' l h
          · subst h
            rfl
        cases e2 with
        | some e2 =>
          simp only [Option.some_inj] at hres
          subst hres
          exact hw2
        | none =>
          simp only [Option.some_inj] at hres
          subst hres
          exact hw2

theorem cleanup_logs (lb : LoadBalancer) (w : World) : (cleanup lb w).2.logs = w.logs := by
  unfold cleanup getDeploymentsForLoadBalancer
  by_cases h : w.failList = true
  · rw [if_pos h]
  · rw [if_neg h]
    exact (foldl_delete_ops _ _).2

/-- Claim C8 (amended): not every error arising in a reconcile pass is
propagated or accompanied by an error log record: sync absorbs
scale-to-zero update errors and cleanup absorbs per-workload delete errors
without any log record reporting an error — every log record sync emits has
no error payload (hasErr = false), and cleanup emits no log record at all.
Errors from validation, retrieval, listing, the target update and the
create are propagated (returned) instead of logged. -/
theorem absorbed_errors_leave_no_error_log
    (image randSuffix : String) (lb : LoadBalancer) (dps : List Deployment) (w : World)
    (hwf : ∀ dp ∈ dps, WFDep dp)
    (hlogs : ∀ l ∈ w.logs, l.hasErr = false) :
    (∀ res, sync image randSuffix lb dps w = some res →
      ∀ l ∈ res.2.logs, l.hasErr = false) ∧
    (∀ lb2 w2, (cleanup lb2 w2).2.logs = w2.logs) :=
  ⟨sync_logs_no_err image randSuffix lb dps w hwf hlogs, fun lb2 w2 => cleanup_logs lb2 w2⟩

def lbC8 : LoadBalancer :=
  { name := "lb8", ns := "ns8", uid := "u-c8", typ := "external",
    hasIpvsdrProviderConfig := true, deletionTimestamp := none,
    sizedReplicas := 2, validationError := none }

def dpC8 : Deployment :=
  { name := "stale8", ns := "ns8", labels := selector lbC8, ownerReferences := [],
    spec := { replicas := some 7, template := { labels := [], spec := podSpecWF } } }

def wC8 : World :=
  { store := [dpC8], failUpdates := ["stale8"], failCreates := [], failDeletes := [],
    failList := false, ops := [], logs := [] }

/-- Counterexample for C8 as stated: at a concrete pass the scale-to-zero
update of a non-target workload fails; sync neither propagates the error
(it returns nil) nor emits any log record carrying an error — the only
records emitted are the unconditional info records, so the error is
discarded without a log record identifying it. -/
theorem error_dropped_without_log_counterexample :
    (sync imgC1 sfxC1 lbC8 [dpC8] wC8).map Prod.fst = some none ∧
    (sync imgC1 sfxC1 lbC8 [dpC8] wC8).map
        (fun r => decide (StoreOp.update (zeroDep dpC8) ∈ r.2.ops)) = some true ∧
    (sync imgC1 sfxC1 lbC8 [dpC8] wC8).map
        (fun r => (r.2.logs.filter (fun l => l.hasErr)).length) = some 0 := by
  decide

/-- Witness for the amended C8 at the same concrete failing pass. -/
theorem absorbed_errors_leave_no_error_log_witness :
    (∀ res, sync imgC1 sfxC1 lbC8 [dpC8] wC8 = some res →
      ∀ l ∈ res.2.logs, l.hasErr = false) ∧
    (∀ lb2 w2, (cleanup lb2 w2).2.logs = w2.logs) :=
  absorbed_errors_leave_no_error_log imgC1 sfxC1 lbC8 [dpC8] wC8 (by decide) (by decide)

end Ipvsdr

namespace Ipvsdr

theorem hasExpectedName_zeroDep (lb : LoadBalancer) (dp : Deployment) :
    hasExpectedName lb (zeroDep dp) = hasExpectedName lb dp := rfl

theorem hasExpectedName_merged (lb : LoadBalancer) (d old : Deployment) :
    hasExpectedName lb (mergedDeployment d old) = hasExpectedName lb old := rfl

theorem generateDeployment_hasExpectedName (image randSuffix : String) (lb : LoadBalancer) :
    hasExpectedName lb (generateDeployment image randSuffix lb) = true := by
  unfold hasExpectedName generateDeployment hasPrefixStr
  simp [String.data_append]

theorem selector_keys_nodup (lb : LoadBalancer) : ((selector lb).map Prod.fst).Nodup := by
  simp [selector]
  decide

theorem set_zero_ne_nil (l : List Container) (a : Container) (h : l ≠ []) :
    l.set 0 a ≠ [] := by
  cases l with
  | nil => exact absurd rfl h
  | cons x xs => simp

theorem mergedDeployment_WF (d old : Deployment) (hold : WFDep old)
    (hdrep : d.spec.replicas ≠ none) : WFDep (mergedDeployment d old) := by
  obtain ⟨h1, h2, h3⟩ := hold
  refine ⟨hdrep, ?_, ?_⟩
  · simp only [mergedDeployment]
    exact set_zero_ne_nil _ _ h2
  · simp [mergedDeployment]

theorem ensureChanged_false_intro (d old : Deployment)
    (hcont : old.spec.template.spec.containers ≠ [])
    (hlab : mergeLabels old.labels d.labels = old.labels)
    (hrep : d.spec.replicas.getD 0 = old.spec.replicas.getD 0)
    (haff : (theAffinity d).nodeAffinity = (theAffinity old).nodeAffinity)
    (himg : (firstContainer d).image = (firstContainer old).image) :
    ensureChanged d old = false := by
  unfold ensureChanged
  have h1 : (mergedDeployment d old).labels = mergeLabels old.labels d.labels := rfl
  have h2 : replicasVal (mergedDeployment d old) = d.spec.replicas.getD 0 := rfl
  have h3 : (theAffinity (mergedDeployment d old)).nodeAffinity
      = (theAffinity d).nodeAffinity := by
    simp [theAffinity, mergedDeployment]
  have h4 : (firstContainer (mergedDeployment d old)).image = (firstContainer d).image := by
    simp only [firstContainer, mergedDeployment]
    rw [headD_set_zero _ _ _ hcont]
  simp only [h1, h2, h3, h4, hlab, hrep, haff, himg, replicasVal, bne_self_eq_false,
    Bool.or_self, Bool.or_false, Bool.false_or]
  rw [mergedDeployment_replicas]
  simp [hrep]

theorem generateDeployment_labels (image randSuffix : String) (lb : LoadBalancer) :
    (generateDeployment image randSuffix lb).labels = selector lb := rfl

theorem ensureChanged_gen_false (image r1 r2 : String) (lb : LoadBalancer) :
    ensureChanged (generateDeployment image r2 lb) (generateDeployment image r1 lb) = false := by
  apply ensureChanged_false_intro
  · simp [generateDeployment]
  · rw [generateDeployment_labels, generateDeployment_labels]
    exact mergeLabels_self (selector lb) (selector_keys_nodup lb)
  · rfl
  · rfl
  · rfl

theorem ensureChanged_second_false (image r1 r2 : String) (lb : LoadBalancer)
    (old : Deployment) (hold : WFDep old) :
    ensureChanged (generateDeployment image r2 lb)
      (mergedDeployment (generateDeployment image r1 lb) old) = false := by
  apply ensureChanged_false_intro
  · simp only [mergedDeployment]
    exact set_zero_ne_nil _ _ hold.2.1
  · rw [generateDeployment_labels]
    have hm : (mergedDeployment (generateDeployment image r1 lb) old).labels
        = mergeLabels old.labels (selector lb) := rfl
    rw [hm]
    exact mergeLabels_idem old.labels (selector lb) (selector_keys_nodup lb)
  · rfl
  · simp only [theAffinity, mergedDeployment]
    rfl
  · have hm : (firstContainer (mergedDeployment (generateDeployment image r1 lb) old)).image
        = (firstContainer (generateDeployment image r1 lb)).image := by
      simp only [firstContainer, mergedDeployment]
      rw [headD_set_zero _ _ _ hold.2.1]
    rw [hm]
    rfl

end Ipvsdr

namespace Ipvsdr

theorem syncLoop_skip_prefix2 (lb : LoadBalancer) (des2 : Deployment)
    (pre2 rest : List Deployment) (st : PassState)
    (h : ∀ e ∈ pre2, e.spec.replicas = some 0 ∧ (!(hasExpectedName lb e) || st.updated) = true) :
    syncLoop lb des2 (pre2 ++ rest) st = syncLoop lb des2 rest st := by
  induction pre2 with
  | nil => rfl
  | cons e l ih =>
    obtain ⟨hz, hc⟩ := h e (by simp)
    rw [List.cons_append, syncLoop_step_skip lb des2 e (l ++ rest) st hc hz]
    exact ih (fun q hq => h q (by simp [hq]))

theorem syncLoop_skip_all (lb : LoadBalancer) (des2 : Deployment) (l : List Deployment)
    (st : PassState)
    (h : ∀ e ∈ l, e.spec.replicas = some 0 ∧ (!(hasExpectedName lb e) || st.updated) = true) :
    syncLoop lb des2 l st = some (none, st) := by
  have h2 := syncLoop_skip_prefix2 lb des2 l [] st h
  rw [List.append_nil] at h2
  rw [h2]
  rfl

theorem syncLoop_second (lb : LoadBalancer) (des2 : Deployment) (hdes2 : WFDep des2)
    (pre2 : List Deployment) (t : Deployment) (post2 : List Deployment) (st : PassState)
    (hupd : st.updated = false)
    (hpre : ∀ e ∈ pre2, hasExpectedName lb e = false ∧ e.spec.replicas = some 0)
    (ht : hasExpectedName lb t = true) (hwt : WFDep t)
    (hch : ensureChanged des2 t = false)
    (hpost : ∀ e ∈ post2, e.spec.replicas = some 0) :
    syncLoop lb des2 (pre2 ++ t :: post2) st
      = some (none, { updated := true, activeDeploy := t, world := st.world }) := by
  rw [syncLoop_skip_prefix2 lb des2 pre2 (t :: post2) st
    (fun e he => ⟨(hpre e he).2, by simp [(hpre e he).1]⟩)]
  have hcond : (!(hasExpectedName lb t) || st.updated) = false := by simp [ht, hupd]
  simp only [syncLoop, hcond, Bool.false_eq_true, if_false,
    ensureDeployment_eq des2 t hdes2 hwt, hch, List.append_nil]
  rw [mergedDeployment_eq_of_not_changed des2 t hwt hdes2.1 hch]
  rw [syncLoop_skip_all lb des2 post2 _ (fun e he => ⟨hpost e he, by simp⟩)]

theorem convergeList_false_decomp (lb : LoadBalancer) (desired : Deployment)
    (l : List Deployment) (t : Deployment)
    (hfind : l.find? (hasExpectedName lb) = some t) :
    ∃ a b, convergeList lb desired l false = a ++ mergedDeployment desired t :: b ∧
      (∀ e ∈ a, hasExpectedName lb e = false ∧ e.spec.replicas = some 0) ∧
      (∀ e ∈ b, e.spec.replicas = some 0) := by
  induction l with
  | nil => simp at hfind
  | cons dp dps ih =>
    cases hhd : hasExpectedName lb dp with
    | true =>
      rw [List.find?_cons_of_pos _ hhd, Option.some_inj] at hfind
      subst hfind
      refine ⟨[], convergeList lb desired dps true, ?_, by simp, ?_⟩
      · simp [convergeList, hhd]
      · exact fun e he => convergeList_true_all_zero lb desired dps e he
    | false =>
      rw [List.find?_cons_of_neg _ (by simp [hhd])] at hfind
      obtain ⟨a, b, heq, ha, hb⟩ := ih hfind
      refine ⟨zeroDep dp :: a, b, ?_, ?_, hb⟩
      · rw [show convergeList lb desired (dp :: dps) false
            = zeroDep dp :: convergeList lb desired dps false by simp [convergeList, hhd]]
        rw [heq]
        rfl
      · intro e he
        rcases List.mem_cons.mp he with h2 | h2
        · subst h2
          exact ⟨by rw [hasExpectedName_zeroDep]; exact hhd, zeroDep_replicas dp⟩
        · exact ha e h2

theorem convergeList_false_nomatch (lb : LoadBalancer) (desired : Deployment)
    (l : List Deployment) (h : ∀ e ∈ l, hasExpectedName lb e = false) :
    ∀ e ∈ convergeList lb desired l false,
      hasExpectedName lb e = false ∧ e.spec.replicas = some 0 := by
  induction l with
  | nil =>
    intro e he
    simp [convergeList] at he
  | cons dp dps ih =>
    intro e he
    have hhd := h dp (by simp)
    rw [show convergeList lb desired (dp :: dps) false
        = zeroDep dp :: convergeList lb desired dps false by simp [convergeList, hhd]] at he
    rcases List.mem_cons.mp he with h2 | h2
    · subst h2
      exact ⟨by rw [hasExpectedName_zeroDep]; exact hhd, zeroDep_replicas dp⟩
    · exact ih (fun q hq => h q (by simp [hq])) e h2

theorem find?_append_none (p : Deployment → Bool) (a rest : List Deployment)
    (h : ∀ e ∈ a, p e = false) : (a ++ rest).find? p = rest.find? p := by
  induction a with
  | nil => rfl
  | cons e a ih =>
    rw [List.cons_append, List.find?_cons_of_neg _ (by simp [h e (by simp)])]
    exact ih (fun q hq => h q (by simp [hq]))

end Ipvsdr

namespace Ipvsdr

theorem sync_run (image randSuffix : String) (lb : LoadBalancer)
    (dps : List Deployment) (w : World)
    (hstore : w.store = dps) (hfailU : w.failUpdates = []) (hfailC : w.failCreates = [])
    (hwf : ∀ dp ∈ dps, WFDep dp) (hnodup : (dps.map Deployment.name).Nodup) :
    ∃ wf : World, sync image randSuffix lb dps w = some (none, wf) ∧
      wf.store = convergeList lb (generateDeployment image randSuffix lb) dps false
        ++ (if dps.any (hasExpectedName lb) then []
            else [generateDeployment image randSuffix lb]) ∧
      wf.failUpdates = w.failUpdates ∧ wf.failCreates = w.failCreates := by
  obtain ⟨st', he, hs, hu, hf1, hf2, hf3, hf4⟩ :=
    syncLoop_converge lb (generateDeployment image randSuffix lb)
      (generateDeployment_WF image randSuffix lb) dps
      { updated := false, activeDeploy := generateDeployment image randSuffix lb, world := w }
      [] (by simpa using hstore) hfailU hwf (by simpa using hnodup)
  simp at hs hu hf1 hf2 hf3 hf4
  cases hany : dps.any (hasExpectedName lb) with
  | true =>
    have hupd : st'.updated = true := by rw [hu, hany]
    refine ⟨(syncStatus lb st'.activeDeploy st'.world).2, ?_, ?_, ?_, ?_⟩
    · simp only [sync]
      rw [he]
      simp only [hupd, Bool.not_true, Bool.false_eq_true, if_false]
      rfl
    · simp only [syncStatus]
      simp [hs]
    · simp only [syncStatus]
      simpa using hf1
    · simp only [syncStatus]
      simpa using hf2
  | false =>
    have hupd : st'.updated = false := by rw [hu, hany]
    have hcfail : (st'.world.logit (createLogOf (generateDeployment image randSuffix lb).name
        lb.name)).failCreates = [] := by
      simp [World.logit, hf2, hfailC]
    have hcr := World_create_ok _ (generateDeployment image randSuffix lb) hcfail
    refine ⟨(syncStatus lb st'.activeDeploy
        { (st'.world.logit (createLogOf (generateDeployment image randSuffix lb).name lb.name)) with
            ops := (st'.world.logit (createLogOf (generateDeployment image randSuffix lb).name
              lb.name)).ops ++ [StoreOp.create (generateDeployment image randSuffix lb)],
            store := (st'.world.logit (createLogOf (generateDeployment image randSuffix lb).name
              lb.name)).store ++ [generateDeployment image randSuffix lb] }).2, ?_, ?_, ?_, ?_⟩
    · simp only [sync]
      rw [he]
      simp only [hupd, Bool.not_false, if_true]
      rw [hcr]
      rfl
    · simp only [syncStatus, World.logit]
      simp [hs]
    · simp only [syncStatus, World.logit]
      simpa using hf1
    · simp only [syncStatus, World.logit]
      simpa using hf2

end Ipvsdr

namespace Ipvsdr

/-- Claim C4: running converge twice in succession on the same LoadBalancer
with no external mutation between the runs yields changed = false in
ensureDeployment on the second run (the merged copy equals the pre-merge
original in all four compared fields), so the second run performs no update
call on the target — indeed no mutation at all: its only new op is the
status recomputation and the store is unchanged.  Stated for a failure-free
first pass over well-formed, distinctly-named claimed deployments; the
second pass runs on the claimed list re-derived from the store the first
pass produced. -/
theorem converge_idempotent (image r1 r2 : String) (lb : LoadBalancer)
    (dps : List Deployment) (w : World)
    (hstore : w.store = dps)
    (hfailU : w.failUpdates = []) (hfailC : w.failCreates = [])
    (hwf : ∀ dp ∈ dps, WFDep dp)
    (hnodup : (dps.map Deployment.name).Nodup)
    (w1 : World) (h1 : (sync image r1 lb dps w).map Prod.snd = some w1) :
    ∃ t, w1.store.find? (hasExpectedName lb) = some t ∧
      (ensureDeployment (generateDeployment image r2 lb) t).map (fun x => x.2.1)
        = some false ∧
      sync image r2 lb w1.store w1
        = some (none, { w1 with ops := w1.ops ++ [StoreOp.status lb.ns lb.name t.name] }) := by
  obtain ⟨wf, hrun, hst, hfu, hfc⟩ := sync_run image r1 lb dps w hstore hfailU hfailC hwf hnodup
  have hw1 : wf = w1 := by
    rw [hrun] at h1
    simpa using h1
  subst hw1
  cases hfind : dps.find? (hasExpectedName lb) with
  | some t0 =>
    have hmem := List.mem_of_find?_eq_some hfind
    have ht0has := List.find?_some hfind
    have hany : dps.any (hasExpectedName lb) = true :=
      List.any_eq_true.mpr ⟨t0, hmem, ht0has⟩
    rw [hany] at hst
    simp only [if_true, List.append_nil] at hst
    have ht0wf := hwf t0 hmem
    obtain ⟨a, b, heq, ha, hb⟩ :=
      convergeList_false_decomp lb (generateDeployment image r1 lb) dps t0 hfind
    have hTwf : WFDep (mergedDeployment (generateDeployment image r1 lb) t0) :=
      mergedDeployment_WF _ t0 ht0wf (generateDeployment_WF image r1 lb).1
    have hThas : hasExpectedName lb (mergedDeployment (generateDeployment image r1 lb) t0)
        = true := by
      rw [hasExpectedName_merged]
      exact ht0has
    have hch : ensureChanged (generateDeployment image r2 lb)
        (mergedDeployment (generateDeployment image r1 lb) t0) = false :=
      ensureChanged_second_false image r1 r2 lb t0 ht0wf
    refine ⟨mergedDeployment (generateDeployment image r1 lb) t0, ?_, ?_, ?_⟩
    · rw [hst, heq]
      rw [find?_append_none _ a _ (fun e he => (ha e he).1)]
      exact List.find?_cons_of_pos _ hThas
    · rw [ensureDeployment_eq _ _ (generateDeployment_WF image r2 lb) hTwf]
      simp [hch]
    · have hloop := syncLoop_second lb (generateDeployment image r2 lb)
        (generateDeployment_WF image r2 lb) a
        (mergedDeployment (generateDeployment image r1 lb) t0) b
        { updated := false, activeDeploy := generateDeployment image r2 lb, world := wf }
        rfl ha hThas hTwf hch hb
      rw [show (a ++ mergedDeployment (generateDeployment image r1 lb) t0 :: b) = wf.store from
        by rw [hst, heq]] at hloop
      simp only [sync]
      rw [hloop]
      rfl
  | none =>
    have hall : ∀ e ∈ dps, hasExpectedName lb e = false := by
      intro x hx
      have := List.find?_eq_none.mp hfind x hx
      simpa using this
    have hany : dps.any (hasExpectedName lb) = false := by
      rw [List.any_eq_false]
      intro x hx
      simp [hall x hx]
    rw [hany] at hst
    simp only [Bool.false_eq_true, if_false] at hst
    have hconv := convergeList_false_nomatch lb (generateDeployment image r1 lb) dps hall
    have hThas := generateDeployment_hasExpectedName image r1 lb
    have hch := ensureChanged_gen_false image r1 r2 lb
    refine ⟨generateDeployment image r1 lb, ?_, ?_, ?_⟩
    · rw [hst]
      rw [find?_append_none _ _ _ (fun e he => (hconv e he).1)]
      exact List.find?_cons_of_pos _ hThas
    · rw [ensureDeployment_eq _ _ (generateDeployment_WF image r2 lb)
        (generateDeployment_WF image r1 lb)]
      simp [hch]
    · have hloop := syncLoop_second lb (generateDeployment image r2 lb)
        (generateDeployment_WF image r2 lb)
        (convergeList lb (generateDeployment image r1 lb) dps false)
        (generateDeployment image r1 lb) []
        { updated := false, activeDeploy := generateDeployment image r2 lb, world := wf }
        rfl hconv hThas (generateDeployment_WF image r1 lb) hch
        (fun e he => absurd he (List.not_mem_nil e))
      rw [show (convergeList lb (generateDeployment image r1 lb) dps false
          ++ generateDeployment image r1 lb :: []) = wf.store from by rw [hst]] at hloop
      simp only [sync]
      rw [hloop]
      rfl

def sfxC4 : String := "ccccc"

/-- World left by the concrete first pass of the C4 witness. -/
def w1C4 : World :=
  ((sync imgC1 sfxC1 lbC1 [dpStaleC1, dpTargetC1] wC1).map Prod.snd).getD wEmpty

/-- Witness for C4: a concrete first pass over a two-workload store, then
the second pass detects no change and performs only the status op. -/
theorem converge_idempotent_witness :
    ∃ t, w1C4.store.find? (hasExpectedName lbC1) = some t ∧
      (ensureDeployment (generateDeployment imgC1 sfxC4 lbC1) t).map (fun x => x.2.1)
        = some false ∧
      sync imgC1 sfxC4 lbC1 w1C4.store w1C4
        = some (none, { w1C4 with ops := w1C4.ops
            ++ [StoreOp.status lbC1.ns lbC1.name t.name] }) :=
  converge_idempotent imgC1 sfxC1 sfxC4 lbC1 [dpStaleC1, dpTargetC1] wC1 rfl rfl rfl
    (by decide) (by decide) w1C4 (by rfl)

end Ipvsdr

namespace Ipvsdr

/- Heap model for the frame claim: the in-process object graph of cached
Deployment objects.  Each object of the claimed list lives at an address (a
list index); DeploymentDeepCopy allocates a fresh address holding a copy of
the value, and every field write of sync / ensureDeployment goes to a copy
address.  Object-store calls are recorded as ops (they serialize the value
to the API server) and do not touch this heap, so store failures are
irrelevant to the heap and are not modelled here. -/
structure Heap where
  cells : List Deployment
  deriving DecidableEq, Repr, Inhabited

def Heap.read (h : Heap) (a : Nat) : Deployment := h.cells.getD a default

def Heap.write (h : Heap) (a : Nat) (d : Deployment) : Heap := ⟨h.cells.set a d⟩

def Heap.alloc (h : Heap) (d : Deployment) : Nat × Heap := (h.cells.length, ⟨h.cells ++ [d]⟩)

/-- ensureDeployment (lines 312-347) in the heap model: DeploymentDeepCopy
allocates a fresh cell holding the read value (line 313); the label loop
and the three field assignments (lines 319-327) write only to the copy's
cell, composing to `mergedDeployment`; the change flags (lines 329-335)
compare the mutated copy cell against the original cell, which is exactly
`ensureChanged` applied to the (unmodified) original. -/
def ensureDeploymentH (desiredDeploy : Deployment) (a : Nat) (h : Heap) :
    Option (Nat × Bool × Heap) :=
  let p := h.alloc (h.read a)
  if ensurePanics desiredDeploy (p.2.read p.1) then none
  else
    let h2 := p.2.write p.1 (mergedDeployment desiredDeploy (p.2.read p.1))
    some (p.1, ensureChanged desiredDeploy (h2.read a), h2)

/-- Loop of sync (lines 265-297) in the heap model, iterating over the
addresses of the claimed deployments.  The scale-down branch deep-copies
the deployment and zeroes the copy's replicas (lines 276-278); the target
branch runs ensureDeploymentH.  Update results are discarded or returned in
the value model (`syncLoop`); here only the heap effects and the issued ops
matter. -/
def syncLoopH (lb : LoadBalancer) (desiredDeploy : Deployment) :
    List Nat → Bool → Heap → List StoreOp → Option (Bool × Heap × List StoreOp)
  | [], updated, h, ops => some (updated, h, ops)
  | a :: as, updated, h, ops =>
    let dp := h.read a
    if !(hasExpectedName lb dp) || updated then
      match dp.spec.replicas with
      | none => none
      | some r =>
        if r = 0 then syncLoopH lb desiredDeploy as updated h ops
        else
          let p := h.alloc (h.read a)
          let h2 := p.2.write p.1 (zeroDep (p.2.read p.1))
          syncLoopH lb desiredDeploy as updated h2 (ops ++ [StoreOp.update (h2.read p.1)])
    else
      match ensureDeploymentH desiredDeploy a h with
      | none => none
      | some (ca, changed, h2) =>
        if changed then
          syncLoopH lb desiredDeploy as true h2 (ops ++ [StoreOp.update (h2.read ca)])
        else
          syncLoopH lb desiredDeploy as true h2 ops

/-- sync (lines 258-310) in the heap model: run the loop over the claimed
addresses, then create the desired deployment when no name matched (the
create takes the generated value, not a heap object). -/
def syncH (image randSuffix : String) (lb : LoadBalancer) (addrs : List Nat) (h : Heap) :
    Option (Heap × List StoreOp) :=
  let desiredDeploy := generateDeployment image randSuffix lb
  match syncLoopH lb desiredDeploy addrs false h [] with
  | none => none
  | some (updated, h2, ops) =>
    if !updated then some (h2, ops ++ [StoreOp.create desiredDeploy])
    else some (h2, ops)

theorem Heap_read_alloc_lt (h : Heap) (d : Deployment) (a : Nat) (ha : a < h.cells.length) :
    (h.alloc d).2.read a = h.read a := by
  simp only [Heap.alloc, Heap.read]
  rw [List.getD_append _ _ _ _ ha]

theorem Heap_read_alloc_self (h : Heap) (d : Deployment) :
    (h.alloc d).2.read (h.alloc d).1 = d := by
  simp only [Heap.alloc, Heap.read]
  rw [List.getD_append_right _ _ _ _ (le_refl _)]
  simp

theorem Heap_read_write_ne (h : Heap) (ca a : Nat) (d : Deployment) (hne : ca ≠ a) :
    (h.write ca d).read a = h.read a := by
  simp only [Heap.write, Heap.read, List.getD, List.get?_eq_getElem?]
  rw [List.getElem?_set_ne hne]

theorem Heap_read_write_self (h : Heap) (ca : Nat) (d : Deployment) (hca : ca < h.cells.length) :
    (h.write ca d).read ca = d := by
  simp only [Heap.write, Heap.read, List.getD, List.get?_eq_getElem?]
  rw [List.getElem?_set_self hca]
  rfl

theorem Heap_write_length (h : Heap) (ca : Nat) (d : Deployment) :
    (h.write ca d).cells.length = h.cells.length := by
  simp [Heap.write]

theorem Heap_alloc_length (h : Heap) (d : Deployment) :
    (h.alloc d).2.cells.length = h.cells.length + 1 := by
  simp [Heap.alloc]

theorem ensureDeploymentH_frame (d : Deployment) (a0 : Nat) (h : Heap) (n : Nat)
    (hn : n ≤ h.cells.length) :
    ∀ out, ensureDeploymentH d a0 h = some out →
      n ≤ out.2.2.cells.length ∧ ∀ a, a < n → out.2.2.read a = h.read a := by
  intro out hout
  simp only [ensureDeploymentH] at hout
  split at hout
  · exact absurd hout (by simp)
  · simp only [Option.some_inj] at hout
    subst hout
    constructor
    · simp only [Heap_write_length, Heap_alloc_length]
      omega
    · intro a ha
      rw [Heap_read_write_ne _ _ _ _ (by simp only [Heap.alloc]; omega)]
      exact Heap_read_alloc_lt h _ a (by omega)

theorem syncLoopH_frame (lb : LoadBalancer) (desired : Deployment) (as : List Nat)
    (u : Bool) (h : Heap) (ops : List StoreOp) (n : Nat) (hn : n ≤ h.cells.length) :
    ∀ out, syncLoopH lb desired as u h ops = some out →
      n ≤ out.2.1.cells.length ∧ ∀ a, a < n → out.2.1.read a = h.read a := by
  induction as generalizing u h ops with
  | nil =>
    intro out hout
    simp only [syncLoopH, Option.some_inj] at hout
    subst hout
    exact ⟨hn, fun a _ => rfl⟩
  | cons a0 as ih =>
    intro out hout
    simp only [syncLoopH] at hout
    split at hout
    · -- scale / skip branch
      split at hout
      · exact absurd hout (by simp)
      · split at hout
        · exact ih u h ops hn out hout
        · have hlen : n ≤ ((h.alloc (h.read a0)).2.write (h.alloc (h.read a0)).1
              (zeroDep ((h.alloc (h.read a0)).2.read (h.alloc (h.read a0)).1))).cells.length := by
            simp only [Heap_write_length, Heap_alloc_length]
            omega
          obtain ⟨hl, hr⟩ := ih _ _ _ hlen out hout
          refine ⟨hl, fun a ha => ?_⟩
          rw [hr a ha]
          rw [Heap_read_write_ne _ _ _ _ (by simp only [Heap.alloc]; omega)]
          exact Heap_read_alloc_lt h _ a (by omega)
    · -- target branch
      split at hout
      · exact absurd hout (by simp)
      · rename_i ca changed h2 heq
        have hframe := ensureDeploymentH_frame desired a0 h n hn (ca, changed, h2) heq
        split at hout
        · obtain ⟨hl, hr⟩ := ih _ _ _ hframe.1 out hout
          exact ⟨hl, fun a ha => by rw [hr a ha]; exact hframe.2 a ha⟩
        · obtain ⟨hl, hr⟩ := ih _ _ _ hframe.1 out hout
          exact ⟨hl, fun a ha => by rw [hr a ha]; exact hframe.2 a ha⟩

end Ipvsdr

namespace Ipvsdr

/-- Claim C10: neither sync nor ensureDeployment mutates any deployment
object from the claimed input list: the scale-down and the field merge are
applied only to fresh deep copies, and the changed flag is computed by
comparing the mutated copy against the untouched original, so cached/listed
objects are unchanged by a converge pass.  Stated in the heap model: after
a completed syncH run, every input address reads its original value; after
ensureDeploymentH, the input address is unchanged, the copy cell holds the
merge of the untouched original, and the changed flag equals ensureChanged
of the untouched original. -/
theorem sync_no_input_mutation (image randSuffix : String) (lb : LoadBalancer)
    (addrs : List Nat) (h : Heap)
    (hv : ∀ a ∈ addrs, a < h.cells.length)
    (d : Deployment) (a0 : Nat) (h0 : Heap) (ha0 : a0 < h0.cells.length) :
    (∀ out, syncH image randSuffix lb addrs h = some out →
      ∀ a ∈ addrs, out.1.read a = h.read a) ∧
    (∀ out, ensureDeploymentH d a0 h0 = some out →
      out.2.2.read a0 = h0.read a0 ∧
      out.2.2.read out.1 = mergedDeployment d (h0.read a0) ∧
      out.2.1 = ensureChanged d (h0.read a0)) := by
  constructor
  · intro out hout a ha
    simp only [syncH] at hout
    cases hsl : syncLoopH lb (generateDeployment image randSuffix lb) addrs false h [] with
    | none =>
      rw [hsl] at hout
      simp at hout
    | some p =>
      rw [hsl] at hout
      obtain ⟨updated, h2, ops⟩ := p
      have hframe := syncLoopH_frame lb (generateDeployment image randSuffix lb) addrs false h []
        h.cells.length (le_refl _) (updated, h2, ops) hsl
      have hread := hframe.2 a (hv a ha)
      cases updated with
      | false =>
        simp only [Bool.not_false, if_true, Option.some_inj] at hout
        subst hout
        exact hread
      | true =>
        simp only [Bool.not_true, Bool.false_eq_true, if_false, Option.some_inj] at hout
        subst hout
        exact hread
  · intro out hout
    simp only [ensureDeploymentH] at hout
    split at hout
    · exact absurd hout (by simp)
    · simp only [Option.some_inj] at hout
      subst hout
      have hclt : (h0.alloc (h0.read a0)).1 ≠ a0 := by
        simp only [Heap.alloc]
        omega
      have h1read : (h0.alloc (h0.read a0)).2.read a0 = h0.read a0 :=
        Heap_read_alloc_lt h0 _ a0 ha0
      have hcaread : (h0.alloc (h0.read a0)).2.read (h0.alloc (h0.read a0)).1 = h0.read a0 :=
        Heap_read_alloc_self h0 _
      refine ⟨?_, ?_, ?_⟩
      · rw [Heap_read_write_ne _ _ _ _ hclt, h1read]
      · rw [Heap_read_write_self]
        · rw [hcaread]
        · rw [Heap_alloc_length]
          simp only [Heap.alloc]
          omega
      · rw [Heap_read_write_ne _ _ _ _ hclt, h1read]

def heapC10 : Heap := ⟨[dpStaleC1]⟩

/-- Witness for C10 at a concrete one-cell heap. -/
theorem sync_no_input_mutation_witness :
    (∀ out, syncH imgC1 sfxC1 lbC1 [0] heapC10 = some out →
      ∀ a ∈ [0], out.1.read a = heapC10.read a) ∧
    (∀ out, ensureDeploymentH (generateDeployment imgC1 sfxC1 lbC1) 0 heapC10 = some out →
      out.2.2.read 0 = heapC10.read 0 ∧
      out.2.2.read out.1
        = mergedDeployment (generateDeployment imgC1 sfxC1 lbC1) (heapC10.read 0) ∧
      out.2.1 = ensureChanged (generateDeployment imgC1 sfxC1 lbC1) (heapC10.read 0)) :=
  sync_no_input_mutation imgC1 sfxC1 lbC1 [0] heapC10 (by decide)
    (generateDeployment imgC1 sfxC1 lbC1) 0 heapC10 (by decide)

end Ipvsdr
